import Mathlib

set_option maxHeartbeats 1000000

/-!
Verification of the FoundationDB-backed job queue engine
(apps/fdb-queue-service/src/fdb.rs) against its specification.

The store is modelled as an association list from byte keys to structured
values.  Keys are lists of bytes (naturals below 256 by construction),
mirroring the exact byte layout produced by the key-builder functions in
the source.  JSON-serialized values are modelled structurally: the engine
writes five shapes of value (job records, counters, TTL entries, crawl
index entries, claim values) plus raw expiry integers, and every read in
the source goes through a parse step whose outcome depends only on that
shape, so a constructor-per-shape inductive is a faithful image of the
serialize/parse pipeline (serde_json round-trips).  A value at a key that
does not parse as the expected shape is modelled by a different
constructor (or the junk constructor), matching the source's treatment of
malformed values.
-/

namespace FdbQ

abbrev Key := List Nat

/-- Subspace tag bytes, fdb.rs lines 9 to 15 (QUEUE_PREFIX etc.). -/
def QUEUE_TAG : Key := [1]

def CRAWL_INDEX_TAG : Key := [2]

def COUNTER_TAG : Key := [3]

def ACTIVE_TAG : Key := [4]

def ACTIVE_CRAWL_TAG : Key := [5]

def TTL_INDEX_TAG : Key := [6]

def CLAIMS_TAG : Key := [7]

/-- Counter type bytes, fdb.rs lines 21 to 24. -/
def COUNTER_TEAM : Key := [1]

def COUNTER_CRAWL : Key := [2]

def COUNTER_ACTIVE_TEAM : Key := [3]

def COUNTER_ACTIVE_CRAWL : Key := [4]

/-- Big-endian 4-byte encoding of a natural, as u32 to_be_bytes. -/
def be32 (n : Nat) : List Nat :=
  [n / 2 ^ 24 % 256, n / 2 ^ 16 % 256, n / 2 ^ 8 % 256, n % 256]

/-- Little-endian 4-byte encoding of a natural, as u32 to_le_bytes. -/
def le32 (n : Nat) : List Nat :=
  [n % 256, n / 2 ^ 8 % 256, n / 2 ^ 16 % 256, n / 2 ^ 24 % 256]

/-- Big-endian 8-byte encoding of a natural, as u64 to_be_bytes. -/
def be64 (n : Nat) : List Nat :=
  [n / 2 ^ 56 % 256, n / 2 ^ 48 % 256, n / 2 ^ 40 % 256, n / 2 ^ 32 % 256,
   n / 2 ^ 24 % 256, n / 2 ^ 16 % 256, n / 2 ^ 8 % 256, n % 256]

/-- Rust i32 to_be_bytes: the two's-complement bit pattern, big-endian. -/
def i32beBytes (p : Int) : List Nat := be32 ((p % (2 ^ 32 : Int)).toNat)

/-- Rust i64 to_be_bytes: the two's-complement bit pattern, big-endian. -/
def i64beBytes (t : Int) : List Nat := be64 ((t % (2 ^ 64 : Int)).toNat)

/-- Length header written before every id: 4-byte big-endian byte length
(fdb.rs pattern: extend_from_slice of (len as u32).to_be_bytes). -/
def lenPre (s : List Nat) : List Nat := be32 s.length

/-- fdb.rs build_queue_key, lines 54 to 69. -/
def buildQueueKey (teamId : List Nat) (priority : Int) (createdAt : Int)
    (jobId : List Nat) : Key :=
  QUEUE_TAG ++ lenPre teamId ++ teamId ++ i32beBytes priority ++
    i64beBytes createdAt ++ lenPre jobId ++ jobId

/-- fdb.rs build_queue_prefix, lines 71 to 77. -/
def buildQueuePrefixKey (teamId : List Nat) : Key :=
  QUEUE_TAG ++ lenPre teamId ++ teamId

/-- fdb.rs build_crawl_index_key, lines 79 to 88. -/
def buildCrawlIndexKey (crawlId jobId : List Nat) : Key :=
  CRAWL_INDEX_TAG ++ lenPre crawlId ++ crawlId ++ lenPre jobId ++ jobId

/-- fdb.rs build_crawl_index_prefix, lines 90 to 96. -/
def buildCrawlIndexPrefixKey (crawlId : List Nat) : Key :=
  CRAWL_INDEX_TAG ++ lenPre crawlId ++ crawlId

/-- fdb.rs build_counter_key, lines 98 to 105. -/
def buildCounterKey (counterType : Key) (id : List Nat) : Key :=
  COUNTER_TAG ++ counterType ++ lenPre id ++ id

/-- fdb.rs build_counter_prefix, lines 107 to 111. -/
def buildCounterPrefixKey (counterType : Key) : Key :=
  COUNTER_TAG ++ counterType

/-- fdb.rs build_active_key, lines 113 to 122. -/
def buildActiveKey (teamId jobId : List Nat) : Key :=
  ACTIVE_TAG ++ lenPre teamId ++ teamId ++ lenPre jobId ++ jobId

/-- fdb.rs build_active_prefix, lines 124 to 130. -/
def buildActivePrefixKey (teamId : List Nat) : Key :=
  ACTIVE_TAG ++ lenPre teamId ++ teamId

/-- fdb.rs build_active_crawl_key, lines 132 to 141. -/
def buildActiveCrawlKey (crawlId jobId : List Nat) : Key :=
  ACTIVE_CRAWL_TAG ++ lenPre crawlId ++ crawlId ++ lenPre jobId ++ jobId

/-- fdb.rs build_active_crawl_prefix, lines 143 to 149. -/
def buildActiveCrawlPrefixKey (crawlId : List Nat) : Key :=
  ACTIVE_CRAWL_TAG ++ lenPre crawlId ++ crawlId

/-- fdb.rs build_ttl_index_key, lines 151 to 161. -/
def buildTtlIndexKey (expiresAt : Int) (teamId jobId : List Nat) : Key :=
  TTL_INDEX_TAG ++ i64beBytes expiresAt ++ lenPre teamId ++ teamId ++
    lenPre jobId ++ jobId

/-- fdb.rs build_ttl_index_prefix_until, lines 163 to 167. -/
def buildTtlIndexUntilKey (expiresAt : Int) : Key :=
  TTL_INDEX_TAG ++ i64beBytes expiresAt

/-- fdb.rs VERSIONSTAMP_PLACEHOLDER, line 18: ten 0xff bytes. -/
def VERSIONSTAMP_PLACEHOLDER : List Nat := List.replicate 10 255

/-- fdb.rs build_claim_key_with_versionstamp, lines 187 to 202: the
pre-commit key sent to the store, with the placeholder where the
versionstamp will go and the trailing 4-byte little-endian offset
(offset = 1 + 4 + jobId length) required by SetVersionstampedKey. -/
def buildClaimKeyWithVersionstamp (jobId workerId : List Nat) : Key :=
  CLAIMS_TAG ++ lenPre jobId ++ jobId ++ VERSIONSTAMP_PLACEHOLDER ++
    lenPre workerId ++ workerId ++ le32 (5 + jobId.length)

/-- Post-commit form of a claim key: the store substitutes the 10-byte
commit versionstamp at the recorded offset and strips the 4-byte offset
suffix (fdb.rs lines 171 to 186). -/
def claimFinalKey (jobId : List Nat) (vs : List Nat) (workerId : List Nat) : Key :=
  CLAIMS_TAG ++ lenPre jobId ++ jobId ++ vs ++ lenPre workerId ++ workerId

/-- fdb.rs build_claims_prefix, lines 205 to 211. -/
def buildClaimsPrefixKey (jobId : List Nat) : Key :=
  CLAIMS_TAG ++ lenPre jobId ++ jobId

/-- fdb.rs next_key, lines 248 to 252. -/
def nextKey (k : Key) : Key := k ++ [0]

/-- fdb.rs end_key, lines 254 to 258. -/
def endKey (p : Key) : Key := p ++ [255]

/-! Byte-wise lexicographic order on keys, the order of the underlying
ordered key-value store. -/

/-- Strict lexicographic order on byte strings: the order in which the
store sorts keys and returns range reads. -/
def keyLtB : Key → Key → Bool
  | _, [] => false
  | [], _ :: _ => true
  | a :: as, b :: bs => decide (a < b) || (decide (a = b) && keyLtB as bs)

/-- Reflexive closure of keyLtB, via totality. -/
def keyLeB (a b : Key) : Bool := !(keyLtB b a)

/-- Membership of a key in the half-open scan range from lo (inclusive)
to hi (exclusive), as used by the store's get_range. -/
def inRangeB (lo hi k : Key) : Bool := keyLeB lo k && keyLtB k hi

theorem keyLtB_irrefl (a : Key) : keyLtB a a = false := by
  induction a with
  | nil => rfl
  | cons x xs ih => simp [keyLtB, ih]

theorem keyLtB_trans : ∀ {a b c : Key},
    keyLtB a b = true → keyLtB b c = true → keyLtB a c = true := by
  intro a
  induction a with
  | nil =>
    intro b c hab hbc
    cases c with
    | nil => cases b <;> simp_all [keyLtB]
    | cons z zs => simp [keyLtB]
  | cons x xs ih =>
    intro b c hab hbc
    cases b with
    | nil => simp [keyLtB] at hab
    | cons y ys =>
      cases c with
      | nil => simp [keyLtB] at hbc
      | cons z zs =>
        simp only [keyLtB, Bool.or_eq_true, Bool.and_eq_true,
          decide_eq_true_eq] at hab hbc ⊢
        rcases hab with h1 | ⟨h1, h1'⟩ <;> rcases hbc with h2 | ⟨h2, h2'⟩
        · exact Or.inl (h1.trans h2)
        · exact Or.inl (h2 ▸ h1)
        · exact Or.inl (h1 ▸ h2)
        · exact Or.inr ⟨h1.trans h2, ih h1' h2'⟩

theorem keyLtB_trichotomy (a b : Key) :
    keyLtB a b = true ∨ a = b ∨ keyLtB b a = true := by
  induction a generalizing b with
  | nil => cases b <;> simp [keyLtB]
  | cons x xs ih =>
    cases b with
    | nil => simp [keyLtB]
    | cons y ys =>
      rcases Nat.lt_trichotomy x y with h | h | h
      · exact Or.inl (by simp [keyLtB, h])
      · rcases ih ys with h2 | h2 | h2
        · exact Or.inl (by simp [keyLtB, h, h2])
        · exact Or.inr (Or.inl (by rw [h, h2]))
        · exact Or.inr (Or.inr (by simp [keyLtB, h.symm, h2]))
      · exact Or.inr (Or.inr (by simp [keyLtB, h]))

theorem keyLtB_asymm {a b : Key} (h : keyLtB a b = true) :
    keyLtB b a = false := by
  by_contra hc
  have hba : keyLtB b a = true := by
    cases hx : keyLtB b a
    · exact absurd hx hc
    · rfl
  have := keyLtB_trans h hba
  rw [keyLtB_irrefl] at this
  exact Bool.false_ne_true this

theorem keyLeB_refl (a : Key) : keyLeB a a = true := by
  simp [keyLeB, keyLtB_irrefl]

theorem keyLeB_antisymm {a b : Key} (h1 : keyLeB a b = true)
    (h2 : keyLeB b a = true) : a = b := by
  simp only [keyLeB, Bool.not_eq_true'] at h1 h2
  rcases keyLtB_trichotomy a b with h | h | h
  · rw [h] at h2; cases h2
  · exact h
  · rw [h] at h1; cases h1

theorem keyLeB_trans {a b c : Key} (h1 : keyLeB a b = true)
    (h2 : keyLeB b c = true) : keyLeB a c = true := by
  simp only [keyLeB, Bool.not_eq_true'] at h1 h2 ⊢
  cases hx : keyLtB c a with
  | false => rfl
  | true =>
    rcases keyLtB_trichotomy c b with h | h | h
    · rw [h] at h2; cases h2
    · rw [h] at hx; rw [hx] at h1; cases h1
    · rw [keyLtB_trans h hx] at h1; cases h1

theorem keyLeB_total (a b : Key) : keyLeB a b = true ∨ keyLeB b a = true := by
  simp only [keyLeB, Bool.not_eq_true']
  rcases keyLtB_trichotomy a b with h | h | h
  · exact Or.inl (keyLtB_asymm h)
  · subst h; exact Or.inl (keyLtB_irrefl _)
  · exact Or.inr (keyLtB_asymm h)

theorem keyLtB_of_keyLeB_ne {a b : Key} (h : keyLeB a b = true)
    (hne : a ≠ b) : keyLtB a b = true := by
  rcases keyLtB_trichotomy a b with h2 | h2 | h2
  · exact h2
  · exact absurd h2 hne
  · simp [keyLeB, h2] at h

/-- Appending the same head leaves the lexicographic comparison to the
tails. -/
theorem keyLtB_append_left (p : Key) (a b : Key) :
    keyLtB (p ++ a) (p ++ b) = keyLtB a b := by
  induction p with
  | nil => rfl
  | cons x xs ih => simp [keyLtB, ih]

/-- Comparison of keys that start with equal-length, distinct segments is
decided entirely by those segments, whatever follows them. -/
theorem keyLtB_append_of_length_eq : ∀ {xs ys : Key} (u v : Key),
    xs.length = ys.length → xs ≠ ys →
    keyLtB (xs ++ u) (ys ++ v) = keyLtB xs ys := by
  intro xs
  induction xs with
  | nil =>
    intro ys u v hlen hne
    cases ys with
    | nil => exact absurd rfl hne
    | cons y ys' => simp at hlen
  | cons x xs' ih =>
    intro ys u v hlen hne
    cases ys with
    | nil => simp at hlen
    | cons y ys' =>
      simp only [List.length_cons, Nat.succ.injEq] at hlen
      by_cases hxy : x = y
      · subst hxy
        have hne' : xs' ≠ ys' := fun h => hne (by rw [h])
        simp [keyLtB, ih u v hlen hne']
      · simp [keyLtB, hxy]

/-- A proper extension of a key sorts strictly after it. -/
theorem keyLtB_self_append {p : Key} {a : Key} (h : a ≠ []) :
    keyLtB p (p ++ a) = true := by
  induction p with
  | nil => cases a with
    | nil => exact absurd rfl h
    | cons x xs => rfl
  | cons x xs ih => simp [keyLtB, ih]

/-- Any key extending the scan start is at or above it. -/
theorem keyLeB_self_append (p a : Key) : keyLeB p (p ++ a) = true := by
  by_cases h : a = []
  · subst h; simp [keyLeB_refl]
  · simp [keyLeB, keyLtB_asymm (keyLtB_self_append h)]

/-! Data model: the value shapes the engine serializes. -/

/-- Job record value, models/FdbQueueJob referenced at fdb.rs line 6 and
populated in push_job (lines 278 to 288).  The data payload is opaque to
the engine (never inspected), so it is carried as an abstract token. -/
structure FdbQueueJob where
  id : List Nat
  data : Nat
  priority : Int
  listenable : Bool
  createdAt : Int
  timesOutAt : Option Int
  listenChannelId : Option (List Nat)
  crawlId : Option (List Nat)
  teamId : List Nat
deriving DecidableEq

/-- Stored values, one constructor per serialized shape.  A value whose
bytes do not parse as the shape a reader expects is modelled by any other
constructor; junk models bytes that are no engine-written shape at all. -/
inductive Val where
  | job (j : FdbQueueJob)
  | counter (n : Int)
  | ttlEntry (priority createdAt : Int) (crawlId : Option (List Nat))
  | crawlEntry (teamId : List Nat) (priority createdAt : Int)
  | claimVal (workerId : List Nat) (queueKey : Option Key) (claimedAt : Int)
  | expiry (t : Int)
  | junk
deriving DecidableEq

/-- The store: a finite map from keys to values, as an association list.
Well-formed stores have pairwise distinct keys (Store.WFKeys). -/
abbrev Store := List (Key × Val)

def Store.get (s : Store) (k : Key) : Option Val :=
  (s.find? (fun kv => kv.1 == k)).map Prod.snd

def Store.set (s : Store) (k : Key) (v : Val) : Store :=
  (k, v) :: s.filter (fun kv => !(kv.1 == k))

def Store.clear (s : Store) (k : Key) : Store :=
  s.filter (fun kv => !(kv.1 == k))

def Store.clearRange (s : Store) (lo hi : Key) : Store :=
  s.filter (fun kv => !(inRangeB lo hi kv.1))

def Store.WFKeys (s : Store) : Prop := (s.map Prod.fst).Nodup

/-- fdb.rs decode_i64_le (lines 219 to 226) applied to the value found at
a key: an absent value or one shorter than 8 bytes decodes to 0; counter
values decode to their integer.  Only counter keys are read this way. -/
def leIntOfVal : Option Val → Int
  | some (.counter n) => n
  | _ => 0

def Store.counterAt (s : Store) (k : Key) : Int := leIntOfVal (s.get k)

/-- fdb.rs decode_i64_be (lines 232 to 239) applied to an active-job
value: expiry values decode to their integer, anything else to 0. -/
def beIntOfVal : Val → Int
  | .expiry t => t
  | _ => 0

/-- Signed 64-bit wrap-around, the arithmetic of the store's atomic add. -/
def wrap64 (n : Int) : Int := (n + 2 ^ 63) % 2 ^ 64 - 2 ^ 63

/-- Atomic add mutation on a counter key (MutationType::Add on an 8-byte
little-endian integer). -/
def Store.addCounter (s : Store) (k : Key) (d : Int) : Store :=
  s.set k (.counter (wrap64 (s.counterAt k + d)))

/-- Ordering of store entries by key, used to model the order in which
get_range returns key-value pairs. -/
def entryLe (a b : Key × Val) : Prop := keyLeB a.1 b.1 = true

instance : DecidableRel entryLe := fun a b => by
  unfold entryLe; infer_instance

instance : IsTotal (Key × Val) entryLe :=
  ⟨fun a b => keyLeB_total a.1 b.1⟩

instance : IsTrans (Key × Val) entryLe :=
  ⟨fun _ _ _ h1 h2 => keyLeB_trans h1 h2⟩

/-- A range read from lo (inclusive) to hi (exclusive) with a limit:
the store returns the entries in the range, in ascending key order, at
most limit of them. -/
def rangeScan (s : Store) (lo hi : Key) (limit : Nat) : List (Key × Val) :=
  ((s.filter (fun kv => inRangeB lo hi kv.1)).insertionSort entryLe).take limit

/-! Basic store lemmas. -/

theorem Store.get_set_self (s : Store) (k : Key) (v : Val) :
    (s.set k v).get k = some v := by
  simp [Store.set, Store.get, List.find?]

theorem Store.get_set_ne (s : Store) (k k' : Key) (v : Val) (h : k' ≠ k) :
    (s.set k v).get k' = s.get k' := by
  simp only [Store.set, Store.get, List.find?]
  have : ((k, v).1 == k') = false := by
    simp only [beq_eq_false_iff_ne, ne_eq]
    exact fun hh => h hh.symm
  rw [this]
  induction s with
  | nil => rfl
  | cons kv rest ih =>
    by_cases hk : kv.1 = k
    · have h1 : (kv.1 == k) = true := by simp [hk]
      have h2 : (kv.1 == k') = false := by
        simp only [beq_eq_false_iff_ne, ne_eq, hk]
        exact fun hh => h hh.symm
      simp only [List.filter_cons, h1, Bool.not_true, List.find?, h2]
      exact ih
    · have h1 : (kv.1 == k) = false := by simp [hk]
      simp only [List.filter_cons, h1, Bool.not_false, List.find?]
      cases hx : kv.1 == k'
      · exact ih
      · rfl

theorem Store.get_clear_self (s : Store) (k : Key) :
    (s.clear k).get k = none := by
  simp only [Store.clear, Store.get]
  induction s with
  | nil => rfl
  | cons kv rest ih =>
    by_cases hk : kv.1 = k
    · have h1 : (kv.1 == k) = true := by simp [hk]
      simp only [List.filter_cons, h1, Bool.not_true]
      exact ih
    · have h1 : (kv.1 == k) = false := by simp [hk]
      simp only [List.filter_cons, h1, Bool.not_false, List.find?, h1]
      exact ih

theorem Store.get_clear_ne (s : Store) (k k' : Key) (h : k' ≠ k) :
    (s.clear k).get k' = s.get k' := by
  simp only [Store.clear, Store.get]
  induction s with
  | nil => rfl
  | cons kv rest ih =>
    by_cases hk : kv.1 = k
    · have h1 : (kv.1 == k) = true := by simp [hk]
      have h2 : (kv.1 == k') = false := by
        simp only [beq_eq_false_iff_ne, ne_eq, hk]
        exact fun hh => h hh.symm
      simp only [List.filter_cons, h1, Bool.not_true, List.find?, h2]
      exact ih
    · have h1 : (kv.1 == k) = false := by simp [hk]
      simp only [List.filter_cons, h1, Bool.not_false, List.find?]
      cases hx : kv.1 == k'
      · exact ih
      · rfl

theorem Store.get_clearRange_notin (s : Store) (lo hi k : Key)
    (h : inRangeB lo hi k = false) :
    (s.clearRange lo hi).get k = s.get k := by
  simp only [Store.clearRange, Store.get]
  induction s with
  | nil => rfl
  | cons kv rest ih =>
    by_cases hk : kv.1 = k
    · subst hk
      simp [List.filter_cons, h, List.find?]
    · have h2 : (kv.1 == k) = false := by simp [hk]
      cases hr : inRangeB lo hi kv.1
      · rw [List.filter_cons, if_pos (by simp [hr]), List.find?, h2]
        rw [List.find?, h2]
        exact ih
      · rw [List.filter_cons, if_neg (by simp [hr]), List.find?, h2]
        exact ih

theorem Store.get_clearRange_in (s : Store) (lo hi k : Key)
    (h : inRangeB lo hi k = true) :
    (s.clearRange lo hi).get k = none := by
  simp only [Store.clearRange, Store.get]
  induction s with
  | nil => rfl
  | cons kv rest ih =>
    by_cases hk : kv.1 = k
    · rw [List.filter_cons, if_neg (by simp [hk, h])]
      exact ih
    · have h2 : (kv.1 == k) = false := by simp [hk]
      cases hr : inRangeB lo hi kv.1
      · rw [List.filter_cons, if_pos (by simp [hr]), List.find?, h2]
        exact ih
      · rw [List.filter_cons, if_neg (by simp [hr])]
        exact ih

theorem Store.counterAt_addCounter_self (s : Store) (k : Key) (d : Int) :
    (s.addCounter k d).counterAt k = wrap64 (s.counterAt k + d) := by
  simp [Store.addCounter, Store.counterAt, Store.get_set_self, leIntOfVal]

theorem Store.get_addCounter_ne (s : Store) (k k' : Key) (d : Int)
    (h : k' ≠ k) : (s.addCounter k d).get k' = s.get k' :=
  Store.get_set_ne _ _ _ _ h

/-! Engine operations. -/

/-- Rust i64::MAX. -/
def i64Max : Int := 2 ^ 63 - 1

/-- push_job's timeout test, fdb.rs line 275:
crawl_id.is_none() and timeout.is_some_and(t greater than 0 and t less
than i64::MAX). -/
def pushHasTimeout (timeout : Option Int) (crawlId : Option (List Nat)) : Bool :=
  crawlId.isNone &&
    (match timeout with
     | some t => decide (0 < t) && decide (t < i64Max)
     | none => false)

/-- push_job's times_out_at, fdb.rs line 276. -/
def pushTimesOutAt (now : Int) (timeout : Option Int)
    (crawlId : Option (List Nat)) : Option Int :=
  if pushHasTimeout timeout crawlId then timeout.map (fun t => now + t)
  else none

/-- The job record push_job serializes, fdb.rs lines 278 to 288. -/
def pushedJob (teamId jobId : List Nat) (data : Nat) (priority : Int)
    (listenable : Bool) (listenChannelId : Option (List Nat))
    (timeout : Option Int) (crawlId : Option (List Nat)) (now : Int) :
    FdbQueueJob :=
  { id := jobId
    data := data
    priority := priority
    listenable := listenable
    createdAt := now
    timesOutAt := pushTimesOutAt now timeout crawlId
    listenChannelId := listenChannelId
    crawlId := crawlId
    teamId := teamId }

/-- fdb.rs push_job, lines 262 to 324: one transaction writing the queue
record, adding 1 to the team-queued counter, and conditionally writing
the TTL index entry and the crawl index entry plus crawl counter.  The
whole function is a single transaction in the source (one create_trx, one
commit), so its effect on the store is this single atomic update. -/
def pushJob (db : Store) (teamId jobId : List Nat) (data : Nat)
    (priority : Int) (listenable : Bool)
    (listenChannelId : Option (List Nat)) (timeout : Option Int)
    (crawlId : Option (List Nat)) (now : Int) : Store :=
  let job := pushedJob teamId jobId data priority listenable
    listenChannelId timeout crawlId now
  let s1 := db.set (buildQueueKey teamId priority now jobId) (.job job)
  let s2 := s1.addCounter (buildCounterKey COUNTER_TEAM teamId) 1
  let s3 := match pushTimesOutAt now timeout crawlId with
    | some expiresAt =>
        s2.set (buildTtlIndexKey expiresAt teamId jobId)
          (.ttlEntry priority now crawlId)
    | none => s2
  match crawlId with
  | some cid =>
      (s3.set (buildCrawlIndexKey cid jobId)
        (.crawlEntry teamId priority now)).addCounter
        (buildCounterKey COUNTER_CRAWL cid) 1
  | none => s3

/-- Reading a value as a job record: serde_json::from_slice on the value
bytes succeeds exactly on job-record values. -/
def jobOfVal : Val → Option FdbQueueJob
  | .job j => some j
  | _ => none

/-- Reading a claim value's workerId field, as pop_next_job line 470 does
on the winning claim (a non-claim value has no workerId string). -/
def claimWorkerOf : Val → Option (List Nat)
  | .claimVal w _ _ => some w
  | _ => none

/-- Reading a claim value's referenced queue key: JSON parse then base64
decode of the queueKey field (clean_orphaned_claims lines 613 to 616).
The pipeline's outcome is carried in the claim value constructor; any
other value shape yields none. -/
def claimQueueKeyOf : Val → Option Key
  | .claimVal _ qk _ => qk
  | _ => none

/-- A claimed job as returned by pop_next_job: the job record plus the
raw queue key (the source returns it base64-encoded as an opaque
handle). -/
structure ClaimedJob where
  job : FdbQueueJob
  queueKey : Key
deriving DecidableEq

/-- Ten-byte big-endian commit versionstamp issued by the store,
monotonically increasing per commit. -/
def vsBytes (n : Nat) : List Nat :=
  [n / 2 ^ 72 % 256, n / 2 ^ 64 % 256, n / 2 ^ 56 % 256, n / 2 ^ 48 % 256,
   n / 2 ^ 40 % 256, n / 2 ^ 32 % 256, n / 2 ^ 24 % 256, n / 2 ^ 16 % 256,
   n / 2 ^ 8 % 256, n % 256]

/-- pop_next_job's expiry test, fdb.rs lines 368 to 372: a job is expired
when it has times_out_at and that timestamp is before now. -/
def isExpiredJob (j : FdbQueueJob) (now : Int) : Bool :=
  match j.timesOutAt with
  | some t => decide (t < now)
  | none => false

/-- pop_next_job's blocked-crawl test, fdb.rs lines 376 to 380. -/
def isBlockedJob (j : FdbQueueJob) (blockedCrawlIds : List (List Nat)) : Bool :=
  match j.crawlId with
  | some cid => blockedCrawlIds.contains cid
  | none => false

/-- The snapshot range read of pop_next_job, fdb.rs lines 350 to 355:
up to 100 entries under the team's queue subspace, in key order. -/
def popScan (db : Store) (teamId : List Nat) : List (Key × Val) :=
  rangeScan db (buildQueuePrefixKey teamId)
    (endKey (buildQueuePrefixKey teamId)) 100

/-- Scanned entries whose value parses as a job record (unparseable
values are skipped, fdb.rs line 366). -/
def popParsed (db : Store) (teamId : List Nat) : List (Key × FdbQueueJob) :=
  (popScan db teamId).filterMap
    (fun kv => (jobOfVal kv.2).map (fun j => (kv.1, j)))

/-- The expired partition of the scan, fdb.rs lines 368 to 372. -/
def popExpiredList (db : Store) (teamId : List Nat) (now : Int) :
    List (Key × FdbQueueJob) :=
  (popParsed db teamId).filter (fun kj => isExpiredJob kj.2 now)

/-- The candidate partition: not expired and not blocked, in scan order
(fdb.rs lines 365 to 384). -/
def popCandidates (db : Store) (teamId : List Nat) (now : Int)
    (blockedCrawlIds : List (List Nat)) : List (Key × FdbQueueJob) :=
  (popParsed db teamId).filter
    (fun kj => !isExpiredJob kj.2 now && !isBlockedJob kj.2 blockedCrawlIds)

/-- Best-effort cleanup of one expired job inside pop_next_job, fdb.rs
lines 389 to 403: clear the queue record, decrement the team counter,
clear the TTL entry if present, and clear the crawl index entry plus
decrement the crawl counter if present. -/
def cleanupExpiredOne (teamId : List Nat) (db : Store)
    (kj : Key × FdbQueueJob) : Store :=
  let db1 := db.clear kj.1
  let db2 := db1.addCounter (buildCounterKey COUNTER_TEAM teamId) (-1)
  let db3 := match kj.2.timesOutAt with
    | some t => db2.clear (buildTtlIndexKey t teamId kj.2.id)
    | none => db2
  match kj.2.crawlId with
  | some cid =>
      (db3.clear (buildCrawlIndexKey cid kj.2.id)).addCounter
        (buildCounterKey COUNTER_CRAWL cid) (-1)
  | none => db3

/-- The separate best-effort cleanup transaction of pop_next_job, fdb.rs
lines 386 to 407 (in the sequential model the commit succeeds). -/
def cleanupExpired (db : Store) (teamId : List Nat)
    (expired : List (Key × FdbQueueJob)) : Store :=
  expired.foldl (cleanupExpiredOne teamId) db

/-- The claim-attempt loop of pop_next_job, fdb.rs lines 413 to 491.
For each candidate in scan order: skip it if any claim already exists
under its claims subspace; otherwise blind-write our versionstamped
claim (the store substitutes the commit versionstamp, modelled by the
vsn counter which increases with each commit) and read back the first
claim under the subspace; return the job if that claim carries our
workerId, otherwise move on. -/
def popLoop (workerId : List Nat) (now : Int) :
    List (Key × FdbQueueJob) → Store → Nat → Store × Option ClaimedJob
  | [], db, _ => (db, none)
  | (qk, j) :: rest, db, vsn =>
    let cpre := buildClaimsPrefixKey j.id
    let existing := rangeScan db cpre (endKey cpre) 1
    if existing.isEmpty then
      let ck := claimFinalKey j.id (vsBytes vsn) workerId
      let db1 := db.set ck (.claimVal workerId (some qk) now)
      match rangeScan db1 cpre (endKey cpre) 1 with
      | [] => popLoop workerId now rest db1 (vsn + 1)
      | wkv :: _ =>
        if claimWorkerOf wkv.2 = some workerId then (db1, some ⟨j, qk⟩)
        else popLoop workerId now rest db1 (vsn + 1)
    else popLoop workerId now rest db vsn

/-- fdb.rs pop_next_job, lines 339 to 495, sequentialized: the snapshot
candidate scan, the expired/blocked partition, the best-effort expired
cleanup transaction, then the claim loop.  vsn is the next commit
versionstamp the store will issue. -/
def popNextJob (db : Store) (teamId workerId : List Nat)
    (blockedCrawlIds : List (List Nat)) (now : Int) (vsn : Nat) :
    Store × Option ClaimedJob :=
  if (popScan db teamId).isEmpty then (db, none)
  else
    let expired := popExpiredList db teamId now
    let db1 := cleanupExpired db teamId expired
    let cands := popCandidates db teamId now blockedCrawlIds
    if cands.isEmpty then (db1, none)
    else popLoop workerId now cands db1 vsn

/-! Base64 (the standard alphabet with required padding, as the base64
crate's STANDARD engine used at fdb.rs line 1): complete_job decodes the
caller's handle with it. -/

/-- Value of one base64 alphabet character (by ASCII code), none for a
character outside the alphabet. -/
def b64CharVal (c : Nat) : Option Nat :=
  if 65 ≤ c ∧ c ≤ 90 then some (c - 65)
  else if 97 ≤ c ∧ c ≤ 122 then some (c - 97 + 26)
  else if 48 ≤ c ∧ c ≤ 57 then some (c - 48 + 52)
  else if c = 43 then some 62
  else if c = 47 then some 63
  else none

/-- Decode a base64 string (given as ASCII codes) to bytes: complete
groups of four characters, padding with one or two 61 (the pad character)
only in the final group, canonical trailing bits required.  Any other
input is rejected. -/
def b64Decode : List Nat → Option (List Nat)
  | [] => some []
  | a :: b :: c :: d :: rest =>
    match b64CharVal a, b64CharVal b with
    | some va, some vb =>
      if c = 61 then
        if d = 61 ∧ rest = [] ∧ vb % 16 = 0 then some [va * 4 + vb / 16]
        else none
      else
        match b64CharVal c with
        | some vc =>
          if d = 61 then
            if rest = [] ∧ vc % 4 = 0 then
              some [va * 4 + vb / 16, vb % 16 * 16 + vc / 4]
            else none
          else
            match b64CharVal d with
            | some vd =>
              (b64Decode rest).map
                (fun tail =>
                  (va * 4 + vb / 16) :: (vb % 16 * 16 + vc / 4) ::
                    (vc % 4 * 64 + vd) :: tail)
            | none => none
        | none => none
    | _, _ => none
  | _ => none

/-! Transaction-level model of complete_job.  The source (fdb.rs lines
518 to 571) creates one transaction to read the job record and a second
transaction that performs every mutation and commits; to settle claims
about what happens inside which transaction, complete_job is modelled as
the list of transactions it issues, each with its read set and its
mutation list, applied atomically in order. -/

/-- One mutation inside a transaction. -/
inductive Mut where
  | clearKey (k : Key)
  | clearKeyRange (lo hi : Key)
  | addInt (k : Key) (d : Int)
  | setVal (k : Key) (v : Val)
deriving DecidableEq

/-- A transaction: the keys it reads plus the mutations it commits. -/
structure Txn where
  reads : List Key
  muts : List Mut
deriving DecidableEq

def applyMut (s : Store) : Mut → Store
  | .clearKey k => s.clear k
  | .clearKeyRange lo hi => s.clearRange lo hi
  | .addInt k d => s.addCounter k d
  | .setVal k v => s.set k v

/-- Atomic application of a transaction's mutations. -/
def applyTxn (s : Store) (t : Txn) : Store := t.muts.foldl applyMut s

/-- Error outcomes of complete_job visible in the model: the
distinguished invalid-input error for a handle that is not valid base64
(fdb.rs lines 520 to 521), and the serialization error when the record's
bytes do not parse as a job (line 532). -/
inductive CompleteErr where
  | invalidInput
  | serialization
deriving DecidableEq

/-- The mutation transaction of complete_job, fdb.rs lines 535 to 562:
clear the queue record, decrement the team-queued counter, clear the TTL
entry when times_out_at is set, clear the crawl index entry and
decrement the crawl-queued counter when crawl_id is set, and clear every
claim under the job's claims subspace.  It reads nothing. -/
def completeMutTxn (qk : Key) (j : FdbQueueJob) : Txn :=
  { reads := []
    muts :=
      [.clearKey qk,
       .addInt (buildCounterKey COUNTER_TEAM j.teamId) (-1)] ++
      (match j.timesOutAt with
       | some t => [.clearKey (buildTtlIndexKey t j.teamId j.id)]
       | none => []) ++
      (match j.crawlId with
       | some cid =>
           [.clearKey (buildCrawlIndexKey cid j.id),
            .addInt (buildCounterKey COUNTER_CRAWL cid) (-1)]
       | none => []) ++
      [.clearKeyRange (buildClaimsPrefixKey j.id)
         (endKey (buildClaimsPrefixKey j.id))] }

/-- fdb.rs complete_job, lines 518 to 571, as the transactions it
issues: decode the handle (invalid base64 is the distinguished error);
read the record in a first transaction; absent record means done with
false; a record that does not parse as a job raises the serialization
error; otherwise a second transaction performs all the mutations.  The
boolean is the function's return value. -/
def completeJobTxns (db : Store) (handle : List Nat) :
    Except CompleteErr (List Txn × Bool) :=
  match b64Decode handle with
  | none => .error .invalidInput
  | some qk =>
    let readTxn : Txn := { reads := [qk], muts := [] }
    match db.get qk with
    | none => .ok ([readTxn], false)
    | some v =>
      match v with
      | .job j => .ok ([readTxn, completeMutTxn qk j], true)
      | _ => .error .serialization

/-- complete_job's net effect: its transactions applied in order. -/
def completeJob (db : Store) (handle : List Nat) :
    Except CompleteErr (Store × Bool) :=
  (completeJobTxns db handle).map
    (fun tb => (tb.1.foldl applyTxn db, tb.2))

/-! clean_orphaned_claims, fdb.rs lines 577 to 675. -/

/-- u32::from_be_bytes of four bytes. -/
def be32Val (bs : List Nat) : Nat := bs.foldl (fun acc b => acc * 256 + b) 0

/-- The key-shape guard of clean_orphaned_claims, fdb.rs lines 609 to
611: the key must be longer than 15 bytes, and at least 5 + jobIdLen + 10
where jobIdLen is read from bytes 1 to 4 of the key. -/
def claimKeyGuard (k : Key) : Bool :=
  decide (k.length > 5 + 10) &&
    decide (k.length ≥ 5 + be32Val ((k.drop 1).take 4) + 10)

/-- One batch read of the claims subspace, fdb.rs lines 586 to 590:
up to 100 entries from the start of the claims subspace.  The scan start
never advances between batches in the source. -/
def cocBatch (db : Store) : List (Key × Val) :=
  rangeScan db CLAIMS_TAG (endKey CLAIMS_TAG) 100

/-- Claims retained for checking, fdb.rs lines 606 to 624: entries
passing the key guard, paired with the queue key recovered from their
value (none when the value does not parse or its queueKey field does not
decode). -/
def cocClaimsToCheck (batch : List (Key × Val)) : List (Key × Option Key) :=
  batch.filterMap
    (fun kv =>
      if claimKeyGuard kv.1 then some (kv.1, claimQueueKeyOf kv.2) else none)

/-- Orphan determination, fdb.rs lines 630 to 647: a claim is orphaned
when it has no usable queue key, or the record at that key is absent. -/
def cocOrphans (db : Store) (cs : List (Key × Option Key)) : List Key :=
  cs.filterMap
    (fun c =>
      match c.2 with
      | some qk => if (db.get qk).isNone then some c.1 else none
      | none => some c.1)

/-- The batch loop of clean_orphaned_claims, fdb.rs lines 584 to 668,
at most 10 iterations; each iteration rescans from the subspace start
(the scan start never advances in the source), clears that batch's
orphans in one transaction, and stops early when a batch is empty,
yields nothing to check, or is shorter than 100. -/
def cocLoop : Nat → Store → Int → Store × Int
  | 0, db, cleaned => (db, cleaned)
  | fuel + 1, db, cleaned =>
    if (cocBatch db).isEmpty then (db, cleaned)
    else if (cocClaimsToCheck (cocBatch db)).isEmpty then (db, cleaned)
    else if (cocOrphans db (cocClaimsToCheck (cocBatch db))).isEmpty then
      if (cocBatch db).length < 100 then (db, cleaned)
      else cocLoop fuel db cleaned
    else if (cocBatch db).length < 100 then
      ((cocOrphans db (cocClaimsToCheck (cocBatch db))).foldl
        Store.clear db,
       cleaned +
         ((cocOrphans db (cocClaimsToCheck (cocBatch db))).length : Int))
    else
      cocLoop fuel
        ((cocOrphans db (cocClaimsToCheck (cocBatch db))).foldl
          Store.clear db)
        (cleaned +
          ((cocOrphans db (cocClaimsToCheck (cocBatch db))).length : Int))

/-- fdb.rs clean_orphaned_claims, lines 577 to 675: returns the final
store and the reported number of cleared claims. -/
def cleanOrphanedClaims (db : Store) : Store × Int := cocLoop 10 db 0

/-! Counter reconciliation, fdb.rs lines 1050 to 1210. -/

/-- fdb.rs reconcile_team_queue_counter, lines 1050 to 1087: count the
entries under the team's queue subspace (scan limit 100000), compare to
the stored counter, overwrite on mismatch, and return the correction. -/
def reconcileTeamQueueCounter (db : Store) (teamId : List Nat) :
    Store × Int :=
  let lo := buildQueuePrefixKey teamId
  let scan := rangeScan db lo (endKey lo) 100000
  let actual : Int := scan.length
  let ck := buildCounterKey COUNTER_TEAM teamId
  let current := db.counterAt ck
  if actual = current then (db, 0)
  else (db.set ck (.counter actual), actual - current)

/-- fdb.rs reconcile_crawl_queue_counter, lines 1089 to 1126. -/
def reconcileCrawlQueueCounter (db : Store) (crawlId : List Nat) :
    Store × Int :=
  let lo := buildCrawlIndexPrefixKey crawlId
  let scan := rangeScan db lo (endKey lo) 100000
  let actual : Int := scan.length
  let ck := buildCounterKey COUNTER_CRAWL crawlId
  let current := db.counterAt ck
  if actual = current then (db, 0)
  else (db.set ck (.counter actual), actual - current)

/-- fdb.rs reconcile_team_active_counter, lines 1128 to 1168: like the
queued reconcilers but counting only entries whose stored expiry (8-byte
big-endian) is after now, with scan limit 10000. -/
def reconcileTeamActiveCounter (db : Store) (teamId : List Nat)
    (now : Int) : Store × Int :=
  let lo := buildActivePrefixKey teamId
  let scan := rangeScan db lo (endKey lo) 10000
  let actual : Int :=
    (scan.filter (fun kv => decide (beIntOfVal kv.2 > now))).length
  let ck := buildCounterKey COUNTER_ACTIVE_TEAM teamId
  let current := db.counterAt ck
  if actual = current then (db, 0)
  else (db.set ck (.counter actual), actual - current)

/-- fdb.rs reconcile_crawl_active_counter, lines 1170 to 1210. -/
def reconcileCrawlActiveCounter (db : Store) (crawlId : List Nat)
    (now : Int) : Store × Int :=
  let lo := buildActiveCrawlPrefixKey crawlId
  let scan := rangeScan db lo (endKey lo) 10000
  let actual : Int :=
    (scan.filter (fun kv => decide (beIntOfVal kv.2 > now))).length
  let ck := buildCounterKey COUNTER_ACTIVE_CRAWL crawlId
  let current := db.counterAt ck
  if actual = current then (db, 0)
  else (db.set ck (.counter actual), actual - current)

/-! Disjointness of the written keys: every builder starts its key with
its subspace tag, so keys of different subspaces differ. -/

theorem take1_buildQueueKey (t : List Nat) (p c : Int) (j : List Nat) :
    (buildQueueKey t p c j).take 1 = [1] := rfl

theorem take1_buildTtlIndexKey (e : Int) (t j : List Nat) :
    (buildTtlIndexKey e t j).take 1 = [6] := rfl

theorem take1_buildCrawlIndexKey (c j : List Nat) :
    (buildCrawlIndexKey c j).take 1 = [2] := rfl

theorem take1_buildCounterKey (ct : Key) (id : List Nat) :
    (buildCounterKey ct id).take 1 = [3] := rfl

theorem take2_counterTeam (id : List Nat) :
    (buildCounterKey COUNTER_TEAM id).take 2 = [3, 1] := rfl

theorem take2_counterCrawl (id : List Nat) :
    (buildCounterKey COUNTER_CRAWL id).take 2 = [3, 2] := rfl

theorem take1_claimFinalKey (j vs w : List Nat) :
    (claimFinalKey j vs w).take 1 = [7] := rfl

theorem ne_of_take_ne {n : Nat} {k w : Key}
    (h : k.take n ≠ w.take n) : k ≠ w := fun he => h (by rw [he])

theorem Store.counterAt_congr {s s' : Store} {k : Key}
    (h : s.get k = s'.get k) : s.counterAt k = s'.counterAt k := by
  simp [Store.counterAt, h]

/-! Helper lemmas about push_job. -/

/-- A crawl-grouped push never computes a timeout (fdb.rs line 275:
crawl_id.is_none() is part of the condition). -/
theorem pushTimesOutAt_of_crawl (now : Int) (timeout : Option Int)
    (cid : List Nat) : pushTimesOutAt now timeout (some cid) = none := by
  simp [pushTimesOutAt, pushHasTimeout]

theorem pushedJob_crawl_timesOutAt (teamId jobId : List Nat) (data : Nat)
    (priority : Int) (listenable : Bool) (lch : Option (List Nat))
    (timeout : Option Int) (cid : List Nat) (now : Int) :
    (pushedJob teamId jobId data priority listenable lch timeout
      (some cid) now).timesOutAt = none := by
  simp [pushedJob, pushTimesOutAt_of_crawl]

theorem pushJob_get_queueRecord (db : Store) (teamId jobId : List Nat)
    (data : Nat) (priority : Int) (listenable : Bool)
    (lch : Option (List Nat)) (timeout : Option Int)
    (crawlId : Option (List Nat)) (now : Int) :
    (pushJob db teamId jobId data priority listenable lch timeout crawlId
      now).get (buildQueueKey teamId priority now jobId) =
    some (.job (pushedJob teamId jobId data priority listenable lch
      timeout crawlId now)) := by
  simp only [pushJob]
  cases hc : crawlId with
  | some cid =>
    rw [pushTimesOutAt_of_crawl]
    rw [Store.get_addCounter_ne _ _ _ _ (ne_of_take_ne (n := 1)
      (by rw [take1_buildQueueKey, take1_buildCounterKey]; decide))]
    rw [Store.get_set_ne _ _ _ _ (ne_of_take_ne (n := 1)
      (by rw [take1_buildQueueKey, take1_buildCrawlIndexKey]; decide))]
    rw [Store.get_addCounter_ne _ _ _ _ (ne_of_take_ne (n := 1)
      (by rw [take1_buildQueueKey, take1_buildCounterKey]; decide))]
    rw [Store.get_set_self]
  | none =>
    cases htoa : pushTimesOutAt now timeout none with
    | some e =>
      rw [Store.get_set_ne _ _ _ _ (ne_of_take_ne (n := 1)
        (by rw [take1_buildQueueKey, take1_buildTtlIndexKey]; decide))]
      rw [Store.get_addCounter_ne _ _ _ _ (ne_of_take_ne (n := 1)
        (by rw [take1_buildQueueKey, take1_buildCounterKey]; decide))]
      rw [Store.get_set_self]
    | none =>
      rw [Store.get_addCounter_ne _ _ _ _ (ne_of_take_ne (n := 1)
        (by rw [take1_buildQueueKey, take1_buildCounterKey]; decide))]
      rw [Store.get_set_self]

theorem pushJob_teamCounter (db : Store) (teamId jobId : List Nat)
    (data : Nat) (priority : Int) (listenable : Bool)
    (lch : Option (List Nat)) (timeout : Option Int)
    (crawlId : Option (List Nat)) (now : Int) :
    (pushJob db teamId jobId data priority listenable lch timeout crawlId
      now).counterAt (buildCounterKey COUNTER_TEAM teamId) =
    wrap64 (db.counterAt (buildCounterKey COUNTER_TEAM teamId) + 1) := by
  simp only [pushJob]
  cases hc : crawlId with
  | some cid =>
    rw [pushTimesOutAt_of_crawl]
    rw [Store.counterAt_congr (Store.get_addCounter_ne _ _ _ _
      (ne_of_take_ne (n := 2)
        (by rw [take2_counterTeam, take2_counterCrawl]; decide)))]
    rw [Store.counterAt_congr (Store.get_set_ne _ _ _ _
      (ne_of_take_ne (n := 1)
        (by rw [take1_buildCounterKey, take1_buildCrawlIndexKey]; decide)))]
    rw [Store.counterAt_addCounter_self]
    rw [Store.counterAt_congr (Store.get_set_ne _ _ _ _
      (ne_of_take_ne (n := 1)
        (by rw [take1_buildCounterKey, take1_buildQueueKey]; decide)))]
  | none =>
    cases htoa : pushTimesOutAt now timeout none with
    | some e =>
      rw [Store.counterAt_congr (Store.get_set_ne _ _ _ _
        (ne_of_take_ne (n := 1)
          (by rw [take1_buildCounterKey, take1_buildTtlIndexKey]; decide)))]
      rw [Store.counterAt_addCounter_self]
      rw [Store.counterAt_congr (Store.get_set_ne _ _ _ _
        (ne_of_take_ne (n := 1)
          (by rw [take1_buildCounterKey, take1_buildQueueKey]; decide)))]
    | none =>
      rw [Store.counterAt_addCounter_self]
      rw [Store.counterAt_congr (Store.get_set_ne _ _ _ _
        (ne_of_take_ne (n := 1)
          (by rw [take1_buildCounterKey, take1_buildQueueKey]; decide)))]

theorem pushJob_ttl_written (db : Store) (teamId jobId : List Nat)
    (data : Nat) (priority : Int) (listenable : Bool)
    (lch : Option (List Nat)) (timeout : Option Int)
    (crawlId : Option (List Nat)) (now : Int) (e : Int)
    (htoa : pushTimesOutAt now timeout crawlId = some e) :
    (pushJob db teamId jobId data priority listenable lch timeout crawlId
      now).get (buildTtlIndexKey e teamId jobId) =
    some (.ttlEntry priority now crawlId) := by
  cases hc : crawlId with
  | some cid => rw [hc, pushTimesOutAt_of_crawl] at htoa; cases htoa
  | none =>
    subst hc
    simp only [pushJob, htoa]
    rw [Store.get_set_self]

theorem pushJob_ttl_unchanged (db : Store) (teamId jobId : List Nat)
    (data : Nat) (priority : Int) (listenable : Bool)
    (lch : Option (List Nat)) (timeout : Option Int)
    (crawlId : Option (List Nat)) (now : Int)
    (htoa : pushTimesOutAt now timeout crawlId = none) (k : Key)
    (hk : k.take 1 = [6]) :
    (pushJob db teamId jobId data priority listenable lch timeout crawlId
      now).get k = db.get k := by
  simp only [pushJob, htoa]
  cases hc : crawlId with
  | some cid =>
    rw [Store.get_addCounter_ne _ _ _ _ (ne_of_take_ne (n := 1)
      (by rw [hk, take1_buildCounterKey]; decide))]
    rw [Store.get_set_ne _ _ _ _ (ne_of_take_ne (n := 1)
      (by rw [hk, take1_buildCrawlIndexKey]; decide))]
    rw [Store.get_addCounter_ne _ _ _ _ (ne_of_take_ne (n := 1)
      (by rw [hk, take1_buildCounterKey]; decide))]
    rw [Store.get_set_ne _ _ _ _ (ne_of_take_ne (n := 1)
      (by rw [hk, take1_buildQueueKey]; decide))]
  | none =>
    rw [Store.get_addCounter_ne _ _ _ _ (ne_of_take_ne (n := 1)
      (by rw [hk, take1_buildCounterKey]; decide))]
    rw [Store.get_set_ne _ _ _ _ (ne_of_take_ne (n := 1)
      (by rw [hk, take1_buildQueueKey]; decide))]

theorem pushJob_crawl_written (db : Store) (teamId jobId : List Nat)
    (data : Nat) (priority : Int) (listenable : Bool)
    (lch : Option (List Nat)) (timeout : Option Int) (cid : List Nat)
    (now : Int) :
    (pushJob db teamId jobId data priority listenable lch timeout
      (some cid) now).get (buildCrawlIndexKey cid jobId) =
      some (.crawlEntry teamId priority now) ∧
    (pushJob db teamId jobId data priority listenable lch timeout
      (some cid) now).counterAt (buildCounterKey COUNTER_CRAWL cid) =
      wrap64 (db.counterAt (buildCounterKey COUNTER_CRAWL cid) + 1) := by
  constructor
  · simp only [pushJob, pushTimesOutAt_of_crawl]
    rw [Store.get_addCounter_ne _ _ _ _ (ne_of_take_ne (n := 1)
      (by rw [take1_buildCrawlIndexKey, take1_buildCounterKey]; decide))]
    rw [Store.get_set_self]
  · simp only [pushJob, pushTimesOutAt_of_crawl]
    rw [Store.counterAt_addCounter_self]
    rw [Store.counterAt_congr (Store.get_set_ne _ _ _ _
      (ne_of_take_ne (n := 1)
        (by rw [take1_buildCounterKey, take1_buildCrawlIndexKey]; decide)))]
    rw [Store.counterAt_congr (Store.get_addCounter_ne _ _ _ _
      (ne_of_take_ne (n := 2)
        (by rw [take2_counterCrawl, take2_counterTeam]; decide)))]
    rw [Store.counterAt_congr (Store.get_set_ne _ _ _ _
      (ne_of_take_ne (n := 1)
        (by rw [take1_buildCounterKey, take1_buildQueueKey]; decide)))]

theorem take1_of_take2 {k : Key} {a b : Nat} (h : k.take 2 = [a, b]) :
    k.take 1 = [a] := by
  have : (k.take 2).take 1 = [a] := by rw [h]; rfl
  rwa [List.take_take] at this

theorem pushJob_crawl_unchanged (db : Store) (teamId jobId : List Nat)
    (data : Nat) (priority : Int) (listenable : Bool)
    (lch : Option (List Nat)) (timeout : Option Int) (now : Int)
    (k : Key) (hk : k.take 1 = [2] ∨ k.take 2 = [3, 2]) :
    (pushJob db teamId jobId data priority listenable lch timeout none
      now).get k = db.get k := by
  have hne1 : k ≠ buildQueueKey teamId priority now jobId := by
    rcases hk with hk | hk
    · exact ne_of_take_ne (n := 1) (by rw [hk, take1_buildQueueKey]; decide)
    · exact ne_of_take_ne (n := 1)
        (by rw [take1_of_take2 hk, take1_buildQueueKey]; decide)
  have hne2 : k ≠ buildCounterKey COUNTER_TEAM teamId := by
    rcases hk with hk | hk
    · exact ne_of_take_ne (n := 1) (by rw [hk, take1_buildCounterKey]; decide)
    · exact ne_of_take_ne (n := 2) (by rw [hk, take2_counterTeam]; decide)
  simp only [pushJob]
  cases htoa : pushTimesOutAt now timeout none with
  | some e =>
    have hne3 : k ≠ buildTtlIndexKey e teamId jobId := by
      rcases hk with hk | hk
      · exact ne_of_take_ne (n := 1)
          (by rw [hk, take1_buildTtlIndexKey]; decide)
      · exact ne_of_take_ne (n := 1)
          (by rw [take1_of_take2 hk, take1_buildTtlIndexKey]; decide)
    rw [Store.get_set_ne _ _ _ _ hne3,
      Store.get_addCounter_ne _ _ _ _ hne2, Store.get_set_ne _ _ _ _ hne1]
  | none =>
    rw [Store.get_addCounter_ne _ _ _ _ hne2, Store.get_set_ne _ _ _ _ hne1]

/-! Scan membership lemmas. -/

theorem mem_rangeScan {s : Store} {lo hi : Key} {n : Nat} {kv : Key × Val}
    (h : kv ∈ rangeScan s lo hi n) :
    kv ∈ s ∧ inRangeB lo hi kv.1 = true := by
  have h1 : kv ∈ (s.filter (fun kv => inRangeB lo hi kv.1)).insertionSort
      entryLe := List.take_subset _ _ h
  have h2 : kv ∈ s.filter (fun kv => inRangeB lo hi kv.1) :=
    (List.perm_insertionSort entryLe _).subset h1
  exact List.mem_filter.mp h2

/-- A key inside the scan range of a prefix starts with the prefix's
first byte. -/
theorem take1_of_inRange {b : Nat} {r : List Nat} {k : Key}
    (h : inRangeB (b :: r) (endKey (b :: r)) k = true) :
    k.take 1 = [b] := by
  rcases k with _ | ⟨kb, kr⟩
  · simp [inRangeB, keyLeB, keyLtB] at h
  · simp only [inRangeB, Bool.and_eq_true, keyLeB, Bool.not_eq_true'] at h
    obtain ⟨h1, h2⟩ := h
    rw [endKey, List.cons_append] at h2
    simp only [keyLtB, Bool.or_eq_true, Bool.and_eq_true,
      decide_eq_true_eq] at h2
    rcases h2 with hlt | ⟨heq, _⟩
    · exfalso
      have : keyLtB (kb :: kr) (b :: r) = true := by simp [keyLtB, hlt]
      rw [this] at h1; cases h1
    · rw [heq]; rfl

/-- An expired job record has a timeout timestamp. -/
theorem timesOutAt_of_isExpired {j : FdbQueueJob} {now : Int}
    (h : isExpiredJob j now = true) : ∃ t, j.timesOutAt = some t := by
  unfold isExpiredJob at h
  cases ht : j.timesOutAt with
  | none => rw [ht] at h; cases h
  | some t => exact ⟨t, rfl⟩

/-- Boolean form of the invariant every push_job-written record obeys:
a job record with a crawl id has no timeout timestamp. -/
def pushInvariantB (db : Store) : Bool :=
  db.all
    (fun kv =>
      match jobOfVal kv.2 with
      | some j => !j.crawlId.isSome || j.timesOutAt.isNone
      | none => true)

theorem popExpired_facts {db : Store} {teamId : List Nat} {now : Int}
    (hinv : pushInvariantB db = true) :
    ∀ kj ∈ popExpiredList db teamId now,
      kj.2.crawlId = none ∧ kj.1.take 1 = [1] := by
  intro kj hm
  obtain ⟨hp, hexp⟩ := List.mem_filter.mp hm
  obtain ⟨kv, hkv, hjob⟩ := List.mem_filterMap.mp hp
  have hjv : jobOfVal kv.2 = some kj.2 ∧ kv.1 = kj.1 := by
    cases hj : jobOfVal kv.2 with
    | none => rw [hj] at hjob; simp at hjob
    | some j0 =>
      rw [hj] at hjob
      simp only [Option.map_some'] at hjob
      injection hjob with h
      rw [← h]
      exact ⟨rfl, rfl⟩
  constructor
  · have hdb : kv ∈ db := (mem_rangeScan hkv).1
    have hall := List.all_eq_true.mp hinv kv hdb
    simp only [hjv.1] at hall
    obtain ⟨t, ht⟩ := timesOutAt_of_isExpired hexp
    cases hc : kj.2.crawlId with
    | none => rfl
    | some c => rw [ht, hc] at hall; simp at hall
  · have hin : inRangeB (buildQueuePrefixKey teamId)
        (endKey (buildQueuePrefixKey teamId)) kv.1 = true :=
      (mem_rangeScan hkv).2
    have hshape : buildQueuePrefixKey teamId =
        1 :: (lenPre teamId ++ teamId) := rfl
    rw [hshape] at hin
    rw [← hjv.2]
    exact take1_of_inRange hin

/-- Under the push invariant, the inline expired cleanup of pop never
touches the crawl index subspace nor any crawl-queued counter. -/
theorem cleanupExpired_crawl_untouched (teamId : List Nat) :
    ∀ (l : List (Key × FdbQueueJob)) (db : Store),
      (∀ kj ∈ l, kj.2.crawlId = none ∧ kj.1.take 1 = [1]) →
      ∀ k : Key, k.take 1 = [2] ∨ k.take 2 = [3, 2] →
        (cleanupExpired db teamId l).get k = db.get k := by
  intro l
  induction l with
  | nil => intro db _ k _; rfl
  | cons kj rest ih =>
    intro db hl k hk
    obtain ⟨hcrawl, hkey⟩ := hl kj (List.mem_cons_self _ _)
    have hstep : cleanupExpired db teamId (kj :: rest) =
        cleanupExpired (cleanupExpiredOne teamId db kj) teamId rest := rfl
    rw [hstep, ih (cleanupExpiredOne teamId db kj)
      (fun x hx => hl x (List.mem_cons_of_mem _ hx)) k hk]
    have hne_qk : k ≠ kj.1 := by
      rcases hk with hk | hk
      · exact ne_of_take_ne (n := 1) (by rw [hk, hkey]; decide)
      · exact ne_of_take_ne (n := 1) (by rw [take1_of_take2 hk, hkey]; decide)
    have hne_tc : k ≠ buildCounterKey COUNTER_TEAM teamId := by
      rcases hk with hk | hk
      · exact ne_of_take_ne (n := 1) (by rw [hk, take1_buildCounterKey]; decide)
      · exact ne_of_take_ne (n := 2) (by rw [hk, take2_counterTeam]; decide)
    unfold cleanupExpiredOne
    rw [hcrawl]
    cases ht : kj.2.timesOutAt with
    | some t =>
      have hne_ttl : k ≠ buildTtlIndexKey t teamId kj.2.id := by
        rcases hk with hk | hk
        · exact ne_of_take_ne (n := 1)
            (by rw [hk, take1_buildTtlIndexKey]; decide)
        · exact ne_of_take_ne (n := 1)
            (by rw [take1_of_take2 hk, take1_buildTtlIndexKey]; decide)
      rw [Store.get_clear_ne _ _ _ hne_ttl,
        Store.get_addCounter_ne _ _ _ _ hne_tc,
        Store.get_clear_ne _ _ _ hne_qk]
    | none =>
      rw [Store.get_addCounter_ne _ _ _ _ hne_tc,
        Store.get_clear_ne _ _ _ hne_qk]

theorem pushHasTimeout_eq_true_iff (timeout : Option Int)
    (crawlId : Option (List Nat)) :
    pushHasTimeout timeout crawlId = true ↔
    crawlId = none ∧ ∃ t, timeout = some t ∧ 0 < t ∧ t < i64Max := by
  cases crawlId <;> cases timeout <;> simp [pushHasTimeout]

/-- Claim C4: for every push_job call, timesOutAt is set to now plus the
timeout exactly when crawlId is absent and the timeout is finite
(below i64::MAX) and positive; the single transaction writes the queue
record, adds one to the team-queued counter, writes the TTL index entry
exactly when timesOutAt was set, and exactly when crawlId is present
writes the crawl index entry and adds one to the crawl-queued counter;
in particular a TTL entry is never written for a crawl-grouped job.
push_job is one transaction in the source (one create_trx, one commit),
so the store update is its atomic effect. -/
theorem C4_push_job (db : Store) (teamId jobId : List Nat) (data : Nat)
    (priority : Int) (listenable : Bool) (lch : Option (List Nat))
    (timeout : Option Int) (crawlId : Option (List Nat)) (now : Int) :
    (∀ t, timeout = some t →
      (pushTimesOutAt now timeout crawlId = some (now + t) ↔
        crawlId = none ∧ 0 < t ∧ t < i64Max)) ∧
    (timeout = none → pushTimesOutAt now timeout crawlId = none) ∧
    (pushJob db teamId jobId data priority listenable lch timeout crawlId
        now).get (buildQueueKey teamId priority now jobId) =
      some (.job (pushedJob teamId jobId data priority listenable lch
        timeout crawlId now)) ∧
    (pushJob db teamId jobId data priority listenable lch timeout crawlId
        now).counterAt (buildCounterKey COUNTER_TEAM teamId) =
      wrap64 (db.counterAt (buildCounterKey COUNTER_TEAM teamId) + 1) ∧
    (∀ e, pushTimesOutAt now timeout crawlId = some e →
      (pushJob db teamId jobId data priority listenable lch timeout
        crawlId now).get (buildTtlIndexKey e teamId jobId) =
        some (.ttlEntry priority now crawlId)) ∧
    (pushTimesOutAt now timeout crawlId = none →
      ∀ k : Key, k.take 1 = TTL_INDEX_TAG →
        (pushJob db teamId jobId data priority listenable lch timeout
          crawlId now).get k = db.get k) ∧
    (∀ cid, crawlId = some cid →
      (pushJob db teamId jobId data priority listenable lch timeout
          crawlId now).get (buildCrawlIndexKey cid jobId) =
        some (.crawlEntry teamId priority now) ∧
      (pushJob db teamId jobId data priority listenable lch timeout
          crawlId now).counterAt (buildCounterKey COUNTER_CRAWL cid) =
        wrap64 (db.counterAt (buildCounterKey COUNTER_CRAWL cid) + 1)) ∧
    (crawlId = none →
      ∀ k : Key, k.take 1 = CRAWL_INDEX_TAG ∨ k.take 2 = [3, 2] →
        (pushJob db teamId jobId data priority listenable lch timeout
          crawlId now).get k = db.get k) ∧
    (∀ cid, crawlId = some cid →
      ∀ k : Key, k.take 1 = TTL_INDEX_TAG →
        (pushJob db teamId jobId data priority listenable lch timeout
          crawlId now).get k = db.get k) := by
  refine ⟨?_, ?_, ?_, ?_, ?_, ?_, ?_, ?_, ?_⟩
  · intro t ht
    subst ht
    constructor
    · intro h
      have hcase : pushHasTimeout (some t) crawlId = true := by
        cases hx : pushHasTimeout (some t) crawlId with
        | true => rfl
        | false =>
          unfold pushTimesOutAt at h
          rw [hx] at h
          simp at h
      obtain ⟨hc, t', ht', h1, h2⟩ :=
        (pushHasTimeout_eq_true_iff _ _).mp hcase
      injection ht' with he
      subst he
      exact ⟨hc, h1, h2⟩
    · rintro ⟨hc, h1, h2⟩
      have hb : pushHasTimeout (some t) crawlId = true :=
        (pushHasTimeout_eq_true_iff _ _).mpr ⟨hc, t, rfl, h1, h2⟩
      simp [pushTimesOutAt, hb]
  · intro ht
    subst ht
    simp [pushTimesOutAt, pushHasTimeout]
  · exact pushJob_get_queueRecord db teamId jobId data priority
      listenable lch timeout crawlId now
  · exact pushJob_teamCounter db teamId jobId data priority listenable
      lch timeout crawlId now
  · intro e he
    exact pushJob_ttl_written db teamId jobId data priority listenable
      lch timeout crawlId now e he
  · intro htoa k hk
    exact pushJob_ttl_unchanged db teamId jobId data priority listenable
      lch timeout crawlId now htoa k hk
  · intro cid hc
    subst hc
    exact pushJob_crawl_written db teamId jobId data priority listenable
      lch timeout cid now
  · intro hc k hk
    subst hc
    exact pushJob_crawl_unchanged db teamId jobId data priority
      listenable lch timeout now k hk
  · intro cid hc k hk
    subst hc
    exact pushJob_ttl_unchanged db teamId jobId data priority listenable
      lch timeout (some cid) now (pushTimesOutAt_of_crawl now timeout cid)
      k hk

theorem C4_push_job_witness :
    (pushJob [] [116] [97] 0 5 true none (some 7) none 3).get
        (buildQueueKey [116] 5 3 [97]) =
      some (.job (pushedJob [116] [97] 0 5 true none (some 7) none 3)) ∧
    pushTimesOutAt 3 (some 7) none = some (3 + 7) := by
  have h := C4_push_job [] [116] [97] 0 5 true none (some 7) none 3
  exact ⟨h.2.2.1, (h.1 7 rfl).mpr ⟨rfl, by norm_num, by norm_num [i64Max]⟩⟩

/-- Claim C10: every job record created by push_job satisfies that a
present crawlId forces timesOutAt to be none, and consequently, in
pop_next_job's inline expired cleanup, every expired record of a store
satisfying this invariant has no crawlId, so the branch clearing the
crawl index entry and decrementing the crawl-queued counter never fires:
the crawl index subspace and the crawl-queued counters are untouched. -/
theorem C10_crawl_timeout_invariant :
    (∀ (teamId jobId : List Nat) (data : Nat) (priority : Int)
        (listenable : Bool) (lch : Option (List Nat))
        (timeout : Option Int) (cid : List Nat) (now : Int),
      (pushedJob teamId jobId data priority listenable lch timeout
        (some cid) now).timesOutAt = none) ∧
    (∀ (db : Store) (teamId : List Nat) (now : Int),
      pushInvariantB db = true →
      (∀ kj ∈ popExpiredList db teamId now, kj.2.crawlId = none) ∧
      (∀ k : Key, k.take 1 = CRAWL_INDEX_TAG ∨ k.take 2 = [3, 2] →
        (cleanupExpired db teamId (popExpiredList db teamId now)).get k =
          db.get k)) := by
  refine ⟨pushedJob_crawl_timesOutAt, fun db teamId now hinv => ⟨?_, ?_⟩⟩
  · exact fun kj h => (popExpired_facts hinv kj h).1
  · exact fun k hk => cleanupExpired_crawl_untouched teamId _ db
      (popExpired_facts hinv) k hk

def jobW : FdbQueueJob :=
  { id := [97], data := 0, priority := 5, listenable := false
    createdAt := 0, timesOutAt := some 1, listenChannelId := none
    crawlId := none, teamId := [116] }

def dbW : Store := [(buildQueueKey [116] 5 0 [97], .job jobW)]

theorem C10_crawl_timeout_invariant_witness :
    pushInvariantB dbW = true ∧
    ∀ kj ∈ popExpiredList dbW [116] 5, kj.2.crawlId = none :=
  ⟨by decide,
   fun kj h =>
     ((C10_crawl_timeout_invariant.2 dbW [116] 5 (by decide)).1) kj h⟩

/-! Key-range bounds for prefix scans (Claim C5). -/

theorem keyLtB_endKey_of_head_lt (p : Key) (b : Nat) (r : List Nat)
    (hb : b < 255) : keyLtB (p ++ (b :: r)) (endKey p) = true := by
  rw [endKey, keyLtB_append_left]
  simp [keyLtB, hb]

theorem buildQueueKey_decomp (t : List Nat) (p c : Int) (j : List Nat) :
    buildQueueKey t p c j =
    buildQueuePrefixKey t ++
      (i32beBytes p ++ (i64beBytes c ++ (lenPre j ++ j))) := by
  simp [buildQueueKey, buildQueuePrefixKey, List.append_assoc]

theorem buildCrawlIndexKey_decomp (c j : List Nat) :
    buildCrawlIndexKey c j =
    buildCrawlIndexPrefixKey c ++ (lenPre j ++ j) := by
  simp [buildCrawlIndexKey, buildCrawlIndexPrefixKey, List.append_assoc]

theorem buildCounterKey_decomp (ct : Key) (id : List Nat) :
    buildCounterKey ct id =
    buildCounterPrefixKey ct ++ (lenPre id ++ id) := by
  simp [buildCounterKey, buildCounterPrefixKey, List.append_assoc]

theorem buildActiveKey_decomp (t j : List Nat) :
    buildActiveKey t j = buildActivePrefixKey t ++ (lenPre j ++ j) := by
  simp [buildActiveKey, buildActivePrefixKey, List.append_assoc]

theorem i32beBytes_head_of_nonneg {p : Int} (h0 : 0 ≤ p)
    (h1 : p < 2 ^ 31) :
    ∃ rest, i32beBytes p = (p.toNat / 2 ^ 24 % 256) :: rest ∧
      p.toNat / 2 ^ 24 % 256 < 128 := by
  have hmod : p % (2 ^ 32 : Int) = p :=
    Int.emod_eq_of_lt h0 (by omega)
  refine ⟨[p.toNat / 2 ^ 16 % 256, p.toNat / 2 ^ 8 % 256, p.toNat % 256],
    ?_, ?_⟩
  · rw [i32beBytes, hmod]; rfl
  · have hlt : p.toNat < 2 ^ 31 := by omega
    omega

theorem lenPre_head_of_short {s : List Nat} (h : s.length < 2 ^ 24) :
    ∃ rest, lenPre s = 0 :: rest := by
  refine ⟨[s.length / 2 ^ 16 % 256, s.length / 2 ^ 8 % 256,
    s.length % 256], ?_⟩
  rw [lenPre, be32, Nat.div_eq_of_lt h]

/-- Claim C5 (amended): a stored key whose first byte after the scan
prefix is below 0xff sorts strictly under end_key of the prefix; this
holds for every queue key with nonnegative priority (the byte after the
team prefix is the i32 high byte, below 0x80), and for the crawl index,
counter, and active subspaces whose ids are shorter than 2^24 bytes (the
byte after the prefix is the high byte of a 4-byte length, 0).  It fails
for queue keys with priority in the range -2^24 to -1, whose byte after
the team prefix is 0xff (see the counterexample). -/
theorem C5_endKey_bound :
    (∀ (p : Key) (b : Nat) (r : List Nat), b < 255 →
      keyLtB (p ++ (b :: r)) (endKey p) = true) ∧
    (∀ (team : List Nat) (p c : Int) (j : List Nat), 0 ≤ p → p < 2 ^ 31 →
      keyLtB (buildQueueKey team p c j)
        (endKey (buildQueuePrefixKey team)) = true ∧
      ((buildQueueKey team p c j).drop
        (buildQueuePrefixKey team).length).head? ≠ some 255) ∧
    (∀ (cid j : List Nat), j.length < 2 ^ 24 →
      keyLtB (buildCrawlIndexKey cid j)
        (endKey (buildCrawlIndexPrefixKey cid)) = true) ∧
    (∀ (ct : Key) (id : List Nat), id.length < 2 ^ 24 →
      keyLtB (buildCounterKey ct id)
        (endKey (buildCounterPrefixKey ct)) = true) ∧
    (∀ (t j : List Nat), j.length < 2 ^ 24 →
      keyLtB (buildActiveKey t j)
        (endKey (buildActivePrefixKey t)) = true) := by
  refine ⟨keyLtB_endKey_of_head_lt, ?_, ?_, ?_, ?_⟩
  · intro team p c j h0 h1
    obtain ⟨rest, hre, hlt⟩ := i32beBytes_head_of_nonneg h0 h1
    have hdec : buildQueueKey team p c j =
        buildQueuePrefixKey team ++
          ((p.toNat / 2 ^ 24 % 256) ::
            (rest ++ (i64beBytes c ++ (lenPre j ++ j)))) := by
      rw [buildQueueKey_decomp, hre]
      simp [List.append_assoc]
    constructor
    · rw [hdec]
      exact keyLtB_endKey_of_head_lt _ _ _ (by omega)
    · rw [hdec, List.drop_left]
      simp only [List.head?_cons, ne_eq, Option.some.injEq]
      omega
  · intro cid j h
    obtain ⟨rest, hre⟩ := lenPre_head_of_short h
    have hdec : buildCrawlIndexKey cid j =
        buildCrawlIndexPrefixKey cid ++ (0 :: (rest ++ j)) := by
      rw [buildCrawlIndexKey_decomp, hre]
      simp [List.append_assoc]
    rw [hdec]
    exact keyLtB_endKey_of_head_lt _ _ _ (by omega)
  · intro ct id h
    obtain ⟨rest, hre⟩ := lenPre_head_of_short h
    have hdec : buildCounterKey ct id =
        buildCounterPrefixKey ct ++ (0 :: (rest ++ id)) := by
      rw [buildCounterKey_decomp, hre]
      simp [List.append_assoc]
    rw [hdec]
    exact keyLtB_endKey_of_head_lt _ _ _ (by omega)
  · intro t j h
    obtain ⟨rest, hre⟩ := lenPre_head_of_short h
    have hdec : buildActiveKey t j =
        buildActivePrefixKey t ++ (0 :: (rest ++ j)) := by
      rw [buildActiveKey_decomp, hre]
      simp [List.append_assoc]
    rw [hdec]
    exact keyLtB_endKey_of_head_lt _ _ _ (by omega)

def negJobC5 : FdbQueueJob :=
  { id := [97], data := 0, priority := -1, listenable := false
    createdAt := 0, timesOutAt := none, listenChannelId := none
    crawlId := none, teamId := [116] }

/-- Claim C5 counterexample: for priority -1 the first byte after the
team prefix of the queue key is 0xff, the key does not sort strictly
below end_key of the team's scan prefix, and the team's queue scan
(as pop and reconciliation issue it) misses the stored record. -/
theorem C5_endKey_bound_counterexample :
    ((buildQueueKey [116] (-1) 0 [97]).drop
      (buildQueuePrefixKey [116]).length).head? = some 255 ∧
    keyLtB (buildQueueKey [116] (-1) 0 [97])
      (endKey (buildQueuePrefixKey [116])) = false ∧
    popScan [(buildQueueKey [116] (-1) 0 [97], .job negJobC5)] [116] =
      [] := by
  refine ⟨by decide, by decide, by decide⟩

theorem C5_endKey_bound_witness :
    keyLtB (buildQueueKey [116] 5 0 [97])
      (endKey (buildQueuePrefixKey [116])) = true ∧
    keyLtB (buildCrawlIndexKey [99] [97])
      (endKey (buildCrawlIndexPrefixKey [99])) = true := by
  constructor
  · exact (C5_endKey_bound.2.1 [116] 5 0 [97] (by norm_num)
      (by norm_num)).1
  · exact C5_endKey_bound.2.2.1 [99] [97] (by norm_num)

/-! Big-endian encodings are lexicographically monotone. -/

/-- Generic fixed-width big-endian byte string of a natural. -/
def natToBE : Nat → Nat → List Nat
  | 0, _ => []
  | w + 1, n => natToBE w (n / 256) ++ [n % 256]

theorem natToBE_length (w n : Nat) : (natToBE w n).length = w := by
  induction w generalizing n with
  | zero => rfl
  | succ w ih => simp [natToBE, ih]

theorem natToBE_lt : ∀ (w : Nat) {n1 n2 : Nat}, n1 < n2 → n2 < 256 ^ w →
    keyLtB (natToBE w n1) (natToBE w n2) = true := by
  intro w
  induction w with
  | zero =>
    intro n1 n2 h1 h2
    simp at h2
    omega
  | succ w ih =>
    intro n1 n2 h1 h2
    rcases Nat.lt_trichotomy (n1 / 256) (n2 / 256) with h | h | h
    · have hseg := ih h (by
        rw [Nat.pow_succ] at h2
        exact Nat.div_lt_of_lt_mul (by omega))
      have hne : natToBE w (n1 / 256) ≠ natToBE w (n2 / 256) := by
        intro he
        rw [he, keyLtB_irrefl] at hseg
        cases hseg
      rw [natToBE, natToBE, keyLtB_append_of_length_eq _ _
        (by rw [natToBE_length, natToBE_length]) hne]
      exact hseg
    · rw [natToBE, natToBE, h, keyLtB_append_left]
      have : n1 % 256 < n2 % 256 := by omega
      simp [keyLtB, this]
    · exfalso
      omega

theorem be32_eq_natToBE (n : Nat) : be32 n = natToBE 4 n := by
  simp only [be32, natToBE, Nat.div_div_eq_div_mul]
  norm_num

theorem be64_eq_natToBE (n : Nat) : be64 n = natToBE 8 n := by
  simp only [be64, natToBE, Nat.div_div_eq_div_mul]
  norm_num

theorem be32_lt {n1 n2 : Nat} (h1 : n1 < n2) (h2 : n2 < 2 ^ 32) :
    keyLtB (be32 n1) (be32 n2) = true := by
  rw [be32_eq_natToBE, be32_eq_natToBE]
  exact natToBE_lt 4 h1 (by norm_num at h2 ⊢; omega)

theorem be64_lt {n1 n2 : Nat} (h1 : n1 < n2) (h2 : n2 < 2 ^ 64) :
    keyLtB (be64 n1) (be64 n2) = true := by
  rw [be64_eq_natToBE, be64_eq_natToBE]
  exact natToBE_lt 8 h1 (by norm_num at h2 ⊢; omega)

/-! Queue-key ordering (Claim C2). -/

theorem buildQueueKey_lt_of_priority (team : List Nat) {p1 p2 : Int}
    (c1 c2 : Int) (j1 j2 : List Nat) (h0 : 0 ≤ p1) (h12 : p1 < p2)
    (h2 : p2 < 2 ^ 31) :
    keyLtB (buildQueueKey team p1 c1 j1)
      (buildQueueKey team p2 c2 j2) = true := by
  rw [buildQueueKey_decomp, buildQueueKey_decomp, keyLtB_append_left]
  have hseg : keyLtB (i32beBytes p1) (i32beBytes p2) = true := by
    simp only [i32beBytes]
    rw [Int.emod_eq_of_lt h0 (by omega),
      Int.emod_eq_of_lt (by omega) (by omega)]
    exact be32_lt (by omega) (by omega)
  have hne : i32beBytes p1 ≠ i32beBytes p2 := by
    intro he
    rw [he, keyLtB_irrefl] at hseg
    cases hseg
  rw [keyLtB_append_of_length_eq _ _
    (by simp only [i32beBytes]; rfl) hne]
  exact hseg

theorem buildQueueKey_decomp2 (t : List Nat) (p c : Int) (j : List Nat) :
    buildQueueKey t p c j =
    (buildQueuePrefixKey t ++ i32beBytes p) ++
      (i64beBytes c ++ (lenPre j ++ j)) := by
  simp [buildQueueKey, buildQueuePrefixKey, List.append_assoc]

theorem buildQueueKey_lt_of_createdAt (team : List Nat) (p : Int)
    {c1 c2 : Int} (j1 j2 : List Nat) (h0 : 0 ≤ c1) (h12 : c1 < c2)
    (h2 : c2 < 2 ^ 63) :
    keyLtB (buildQueueKey team p c1 j1)
      (buildQueueKey team p c2 j2) = true := by
  rw [buildQueueKey_decomp2, buildQueueKey_decomp2, keyLtB_append_left]
  have hseg : keyLtB (i64beBytes c1) (i64beBytes c2) = true := by
    simp only [i64beBytes]
    rw [Int.emod_eq_of_lt h0 (by omega),
      Int.emod_eq_of_lt (by omega) (by omega)]
    exact be64_lt (by omega) (by omega)
  have hne : i64beBytes c1 ≠ i64beBytes c2 := by
    intro he
    rw [he, keyLtB_irrefl] at hseg
    cases hseg
  rw [keyLtB_append_of_length_eq _ _
    (by simp only [i64beBytes]; rfl) hne]
  exact hseg

/-! The candidate list of a pop is sorted strictly ascending by key. -/

theorem pairwise_keys_filterMap_jobs {R : Key → Key → Prop} :
    ∀ l : List (Key × Val), l.Pairwise (fun a b => R a.1 b.1) →
      (l.filterMap
        (fun kv => (jobOfVal kv.2).map (fun j => (kv.1, j)))).Pairwise
        (fun (a b : Key × FdbQueueJob) => R a.1 b.1) := by
  intro l
  induction l with
  | nil => intro _; simp
  | cons kv rest ih =>
    intro hp
    obtain ⟨hhead, htail⟩ := List.pairwise_cons.mp hp
    rw [List.filterMap_cons]
    cases hj : jobOfVal kv.2 with
    | none => simp only [Option.map_none']; exact ih htail
    | some j =>
      simp only [Option.map_some']
      refine List.pairwise_cons.mpr ⟨?_, ih htail⟩
      intro x hx
      obtain ⟨kv', hkv', hmap⟩ := List.mem_filterMap.mp hx
      have hx1 : x.1 = kv'.1 := by
        cases hj' : jobOfVal kv'.2 with
        | none => rw [hj'] at hmap; simp at hmap
        | some j' =>
          rw [hj'] at hmap
          simp only [Option.map_some'] at hmap
          injection hmap with he
          rw [← he]
      rw [hx1]
      exact hhead kv' hkv'

theorem rangeScan_pairwise_strict {db : Store} {lo hi : Key} {n : Nat}
    (hwf : db.WFKeys) :
    (rangeScan db lo hi n).Pairwise
      (fun a b => keyLtB a.1 b.1 = true) := by
  have hsorted : ((db.filter
      (fun kv => inRangeB lo hi kv.1)).insertionSort entryLe).Sorted
      entryLe := List.sorted_insertionSort _ _
  have hle : (rangeScan db lo hi n).Pairwise entryLe :=
    List.Pairwise.sublist (List.take_sublist _ _) hsorted
  have hnodupdb : (db.map Prod.fst).Nodup := hwf
  have hnodupf : ((db.filter (fun kv => inRangeB lo hi kv.1)).map
      Prod.fst).Nodup :=
    List.Nodup.sublist (List.Sublist.map _ (List.filter_sublist _))
      hnodupdb
  have hnodups : (((db.filter (fun kv => inRangeB lo hi kv.1)).insertionSort
      entryLe).map Prod.fst).Nodup := by
    have hperm := List.perm_insertionSort entryLe
      (db.filter (fun kv => inRangeB lo hi kv.1))
    exact ((hperm.map Prod.fst).nodup_iff).mpr hnodupf
  have hnodup : ((rangeScan db lo hi n).map Prod.fst).Nodup :=
    List.Nodup.sublist (List.Sublist.map _ (List.take_sublist _ _))
      hnodups
  have hne : (rangeScan db lo hi n).Pairwise
      (fun a b => a.1 ≠ b.1) := List.pairwise_map.mp hnodup
  exact (hle.and hne).imp
    (fun h => keyLtB_of_keyLeB_ne h.1 h.2)

theorem popCandidates_pairwise {db : Store} {team : List Nat}
    {now : Int} {blocked : List (List Nat)} (hwf : db.WFKeys) :
    (popCandidates db team now blocked).Pairwise
      (fun a b => keyLtB a.1 b.1 = true) := by
  unfold popCandidates popParsed popScan
  exact List.Pairwise.filter _
    (pairwise_keys_filterMap_jobs (R := fun a b => keyLtB a b = true) _
      (rangeScan_pairwise_strict hwf))

/-! The claim loop returns the first candidate whose claims subspace is
empty. -/

theorem claimFinalKey_decomp (jid vs w : List Nat) :
    claimFinalKey jid vs w =
    buildClaimsPrefixKey jid ++ (vs ++ (lenPre w ++ w)) := by
  simp [claimFinalKey, buildClaimsPrefixKey, List.append_assoc]

theorem vsBytes_head_small {vsn : Nat} (h : vsn < 2 ^ 72) :
    ∃ rest, vsBytes vsn = 0 :: rest := by
  refine ⟨[vsn / 2 ^ 64 % 256, vsn / 2 ^ 56 % 256, vsn / 2 ^ 48 % 256,
    vsn / 2 ^ 40 % 256, vsn / 2 ^ 32 % 256, vsn / 2 ^ 24 % 256,
    vsn / 2 ^ 16 % 256, vsn / 2 ^ 8 % 256, vsn % 256], ?_⟩
  rw [vsBytes, Nat.div_eq_of_lt h]

theorem claimFinalKey_inRange (jid : List Nat) {vsn : Nat}
    (w : List Nat) (h : vsn < 2 ^ 72) :
    inRangeB (buildClaimsPrefixKey jid)
      (endKey (buildClaimsPrefixKey jid))
      (claimFinalKey jid (vsBytes vsn) w) = true := by
  obtain ⟨r, hr⟩ := vsBytes_head_small h
  have hdec : claimFinalKey jid (vsBytes vsn) w =
      buildClaimsPrefixKey jid ++ (0 :: (r ++ (lenPre w ++ w))) := by
    rw [claimFinalKey_decomp, hr]
    simp [List.append_assoc]
  rw [hdec, inRangeB, keyLeB_self_append,
    keyLtB_endKey_of_head_lt _ _ _ (by norm_num)]
  rfl

theorem filter_eq_nil_of_rangeScan_nil {s : Store} {lo hi : Key}
    (h : rangeScan s lo hi 1 = []) :
    s.filter (fun kv => inRangeB lo hi kv.1) = [] := by
  unfold rangeScan at h
  have hsort : (s.filter (fun kv => inRangeB lo hi kv.1)).insertionSort
      entryLe = [] := by
    cases hx : (s.filter (fun kv => inRangeB lo hi kv.1)).insertionSort
        entryLe with
    | nil => rfl
    | cons a l => rw [hx] at h; simp at h
  have hperm := List.perm_insertionSort entryLe
    (s.filter (fun kv => inRangeB lo hi kv.1))
  rw [hsort] at hperm
  exact (hperm.symm).eq_nil

theorem rangeScan_set_singleton {db : Store} {lo hi ck : Key} {v : Val}
    (hnil : db.filter (fun kv => inRangeB lo hi kv.1) = [])
    (hin : inRangeB lo hi ck = true) :
    rangeScan (db.set ck v) lo hi 1 = [(ck, v)] := by
  unfold rangeScan Store.set
  have hrest : (db.filter (fun kv => !(kv.1 == ck))).filter
      (fun kv => inRangeB lo hi kv.1) = [] := by
    rw [List.eq_nil_iff_forall_not_mem]
    intro x hx
    have hx1 := List.mem_filter.mp hx
    have hx2 := List.mem_filter.mp hx1.1
    have hmem : x ∈ db.filter (fun kv => inRangeB lo hi kv.1) :=
      List.mem_filter.mpr ⟨hx2.1, hx1.2⟩
    rw [hnil] at hmem
    exact absurd hmem (List.not_mem_nil x)
  rw [List.filter_cons, if_pos (by simp [hin]), hrest]
  rfl

theorem popLoop_first (workerId : List Nat) (now : Int) (qk : Key)
    (j : FdbQueueJob) (rest : List (Key × FdbQueueJob)) (db : Store)
    (vsn : Nat)
    (hempty : rangeScan db (buildClaimsPrefixKey j.id)
      (endKey (buildClaimsPrefixKey j.id)) 1 = [])
    (hvs : vsn < 2 ^ 72) :
    popLoop workerId now ((qk, j) :: rest) db vsn =
      (db.set (claimFinalKey j.id (vsBytes vsn) workerId)
        (.claimVal workerId (some qk) now), some ⟨j, qk⟩) := by
  have hfil := filter_eq_nil_of_rangeScan_nil hempty
  have hscan1 := rangeScan_set_singleton
    (v := Val.claimVal workerId (some qk) now) hfil
    (claimFinalKey_inRange j.id workerId hvs)
  simp only [popLoop, hempty, List.isEmpty_nil, if_true, hscan1]
  simp [claimWorkerOf]

/-- Claim C2 (amended): the range scan and the claim loop attempt
candidates in ASCENDING key order, which for nonnegative priorities
means ascending priority first (not descending as claimed), ties broken
by ascending createdAt; the first candidate with no existing claims is
the one returned.  The byte order of build_queue_key makes a smaller
nonnegative priority sort first, and within one priority a smaller
createdAt sort first. -/
theorem C2_priority_order :
    (∀ (team : List Nat) (p1 p2 c1 c2 : Int) (j1 j2 : List Nat),
      0 ≤ p1 → p1 < p2 → p2 < 2 ^ 31 →
      keyLtB (buildQueueKey team p1 c1 j1)
        (buildQueueKey team p2 c2 j2) = true) ∧
    (∀ (team : List Nat) (p c1 c2 : Int) (j1 j2 : List Nat),
      0 ≤ c1 → c1 < c2 → c2 < 2 ^ 63 →
      keyLtB (buildQueueKey team p c1 j1)
        (buildQueueKey team p c2 j2) = true) ∧
    (∀ (db : Store) (team : List Nat) (now : Int)
        (blocked : List (List Nat)), db.WFKeys →
      (popCandidates db team now blocked).Pairwise
        (fun a b => keyLtB a.1 b.1 = true)) ∧
    (∀ (workerId : List Nat) (now : Int) (qk : Key) (j : FdbQueueJob)
        (rest : List (Key × FdbQueueJob)) (db : Store) (vsn : Nat),
      rangeScan db (buildClaimsPrefixKey j.id)
        (endKey (buildClaimsPrefixKey j.id)) 1 = [] →
      vsn < 2 ^ 72 →
      popLoop workerId now ((qk, j) :: rest) db vsn =
        (db.set (claimFinalKey j.id (vsBytes vsn) workerId)
          (.claimVal workerId (some qk) now), some ⟨j, qk⟩)) := by
  refine ⟨?_, ?_, ?_, ?_⟩
  · intro team p1 p2 c1 c2 j1 j2 h0 h12 h2
    exact buildQueueKey_lt_of_priority team c1 c2 j1 j2 h0 h12 h2
  · intro team p c1 c2 j1 j2 h0 h12 h2
    exact buildQueueKey_lt_of_createdAt team p j1 j2 h0 h12 h2
  · intro db team now blocked hwf
    exact popCandidates_pairwise hwf
  · intro workerId now qk j rest db vsn hempty hvs
    exact popLoop_first workerId now qk j rest db vsn hempty hvs

def jobP3 : FdbQueueJob :=
  { id := [97], data := 0, priority := 3, listenable := false
    createdAt := 0, timesOutAt := none, listenChannelId := none
    crawlId := none, teamId := [116] }

def jobP1 : FdbQueueJob :=
  { id := [98], data := 0, priority := 1, listenable := false
    createdAt := 0, timesOutAt := none, listenChannelId := none
    crawlId := none, teamId := [116] }

def dbC2 : Store :=
  [(buildQueueKey [116] 3 0 [97], .job jobP3),
   (buildQueueKey [116] 1 0 [98], .job jobP1)]

/-- Claim C2 counterexample: a team queue holding fresh, unblocked jobs
of priorities 3 and 1 with distinct (priority, createdAt); the first pop
returns the priority-1 job even though the priority-3 job is a live
candidate, refuting descending-priority order. -/
theorem C2_priority_order_counterexample :
    ((popNextJob dbC2 [116] [119] [] 5 0).2.map
      (fun c => c.job.priority)) = some 1 ∧
    (buildQueueKey [116] 3 0 [97], jobP3) ∈
      popCandidates dbC2 [116] 5 [] ∧
    jobP3.priority = 3 := by
  refine ⟨by decide, by decide, rfl⟩

theorem C2_priority_order_witness :
    keyLtB (buildQueueKey [116] 1 0 [98]) (buildQueueKey [116] 3 0 [97])
      = true ∧
    keyLtB (buildQueueKey [116] 1 0 [98]) (buildQueueKey [116] 1 4 [97])
      = true := by
  constructor
  · exact C2_priority_order.1 [116] 1 3 0 0 [98] [97] (by norm_num)
      (by norm_num) (by norm_num)
  · exact C2_priority_order.2.1 [116] 1 0 4 [98] [97] (by norm_num)
      (by norm_num) (by norm_num)

/-! Lemmas about the claim loop of pop_next_job. -/

/-- A job returned by the claim loop comes from the candidate list. -/
theorem popLoop_mem (workerId : List Nat) (now : Int) :
    ∀ (l : List (Key × FdbQueueJob)) (db : Store) (vsn : Nat)
      (db' : Store) (cj : ClaimedJob),
      popLoop workerId now l db vsn = (db', some cj) →
      (cj.queueKey, cj.job) ∈ l := by
  intro l
  induction l with
  | nil =>
    intro db vsn db' cj h
    simp [popLoop] at h
  | cons kj rest ih =>
    intro db vsn db' cj h
    obtain ⟨qk, j⟩ := kj
    simp only [popLoop] at h
    by_cases h1 : (rangeScan db (buildClaimsPrefixKey j.id)
        (endKey (buildClaimsPrefixKey j.id)) 1).isEmpty
    · rw [if_pos h1] at h
      cases h2 : rangeScan
          (db.set (claimFinalKey j.id (vsBytes vsn) workerId)
            (.claimVal workerId (some qk) now))
          (buildClaimsPrefixKey j.id)
          (endKey (buildClaimsPrefixKey j.id)) 1 with
      | nil =>
        simp only [h2] at h
        exact List.mem_cons_of_mem _ (ih _ _ _ _ h)
      | cons wkv tl =>
        simp only [h2] at h
        by_cases h3 : claimWorkerOf wkv.2 = some workerId
        · rw [if_pos h3] at h
          injection h with he1 he2
          injection he2 with he3
          rw [← he3]
          exact List.mem_cons_self _ _
        · rw [if_neg h3] at h
          exact List.mem_cons_of_mem _ (ih _ _ _ _ h)
    · rw [if_neg h1] at h
      exact List.mem_cons_of_mem _ (ih _ _ _ _ h)

/-- A pop that returns a job got it from the candidate list. -/
theorem popNextJob_mem {db : Store} {teamId workerId : List Nat}
    {blockedCrawlIds : List (List Nat)} {now : Int} {vsn : Nat}
    {db' : Store} {cj : ClaimedJob}
    (h : popNextJob db teamId workerId blockedCrawlIds now vsn =
      (db', some cj)) :
    (cj.queueKey, cj.job) ∈ popCandidates db teamId now blockedCrawlIds := by
  simp only [popNextJob] at h
  by_cases h1 : (popScan db teamId).isEmpty
  · rw [if_pos h1] at h
    injection h with he1 he2
    cases he2
  · rw [if_neg h1] at h
    by_cases h2 : (popCandidates db teamId now blockedCrawlIds).isEmpty
    · rw [if_pos h2] at h
      injection h with he1 he2
      cases he2
    · rw [if_neg h2] at h
      exact popLoop_mem workerId now _ _ _ _ _ h

/-- Claim C8: a pop with a blocked crawl list never returns a job whose
crawlId is a blocked crawl, even when it is the best candidate in the
scanned range; the job returned (if any) comes from the candidate list,
which keeps the remaining non-blocked, non-expired jobs in scan order. -/
theorem C8_blocked_crawl (db : Store) (teamId workerId : List Nat)
    (blockedCrawlIds : List (List Nat)) (now : Int) (vsn : Nat)
    (db' : Store) (cj : ClaimedJob)
    (h : popNextJob db teamId workerId blockedCrawlIds now vsn =
      (db', some cj)) :
    (∀ C ∈ blockedCrawlIds, cj.job.crawlId ≠ some C) ∧
    (cj.queueKey, cj.job) ∈ popCandidates db teamId now blockedCrawlIds := by
  have hmem := popNextJob_mem h
  refine ⟨?_, hmem⟩
  intro C hC hcid
  have hf := (List.mem_filter.mp hmem).2
  simp only [Bool.and_eq_true, Bool.not_eq_true'] at hf
  have hb := hf.2
  rw [isBlockedJob, hcid] at hb
  simp at hb
  exact hb hC

/-! Claim C1: the versionstamp claim protocol elects a unique winner. -/

/-- Final claim keys for the same job compare exactly as their 10-byte
versionstamps do, whatever the worker ids are (the versionstamp precedes
the worker id in the final key). -/
theorem claimFinalKey_lt_eq_vs {jid : List Nat} {vs1 vs2 : List Nat}
    (w1 w2 : List Nat) (h1 : vs1.length = 10) (h2 : vs2.length = 10)
    (hne : vs1 ≠ vs2) :
    keyLtB (claimFinalKey jid vs1 w1) (claimFinalKey jid vs2 w2) =
      keyLtB vs1 vs2 := by
  rw [claimFinalKey_decomp, claimFinalKey_decomp, keyLtB_append_left,
    keyLtB_append_of_length_eq _ _ (h1.trans h2.symm) hne]

/-- A claim (versionstamp, workerId) wins a job when its final key is
strictly the smallest among all claims written for that job: the first
claim a 1-entry range read returns. -/
def claimWins (jid : List Nat) (claims : List (List Nat × List Nat))
    (c : List Nat × List Nat) : Prop :=
  c ∈ claims ∧ ∀ c' ∈ claims, c' ≠ c →
    keyLtB (claimFinalKey jid c.1 c.2) (claimFinalKey jid c'.1 c'.2) =
      true

/-- The workerId carried by the first claim under a job's claims
subspace, as pop_next_job's verification read sees it. -/
def firstClaimWorker (db : Store) (jobId : List Nat) :
    Option (List Nat) :=
  match rangeScan db (buildClaimsPrefixKey jobId)
      (endKey (buildClaimsPrefixKey jobId)) 1 with
  | [] => none
  | kv :: _ => claimWorkerOf kv.2

theorem popLoop_winner (workerId : List Nat) (now : Int) :
    ∀ (l : List (Key × FdbQueueJob)) (db : Store) (vsn : Nat)
      (db' : Store) (cj : ClaimedJob),
      popLoop workerId now l db vsn = (db', some cj) →
      firstClaimWorker db' cj.job.id = some workerId := by
  intro l
  induction l with
  | nil =>
    intro db vsn db' cj h
    simp [popLoop] at h
  | cons kj rest ih =>
    intro db vsn db' cj h
    obtain ⟨qk, j⟩ := kj
    simp only [popLoop] at h
    by_cases h1 : (rangeScan db (buildClaimsPrefixKey j.id)
        (endKey (buildClaimsPrefixKey j.id)) 1).isEmpty
    · rw [if_pos h1] at h
      cases h2 : rangeScan
          (db.set (claimFinalKey j.id (vsBytes vsn) workerId)
            (.claimVal workerId (some qk) now))
          (buildClaimsPrefixKey j.id)
          (endKey (buildClaimsPrefixKey j.id)) 1 with
      | nil =>
        simp only [h2] at h
        exact ih _ _ _ _ h
      | cons wkv tl =>
        simp only [h2] at h
        by_cases h3 : claimWorkerOf wkv.2 = some workerId
        · rw [if_pos h3] at h
          injection h with he1 he2
          injection he2 with he3
          rw [← he1, ← he3]
          simp only [firstClaimWorker, h2]
          exact h3
        · rw [if_neg h3] at h
          exact ih _ _ _ _ h
    · rw [if_neg h1] at h
      exact ih _ _ _ _ h

/-- Claim C1: among the claims written for a job, the winner is the
unique claim whose final key (versionstamp before workerId) is smallest;
claims with pairwise distinct versionstamps are totally ordered by
them, so the claim with the smallest versionstamp wins regardless of
worker ids, at most one claim ever wins, and a pop returns a job only
when the first claim under the job's claims subspace carries its own
workerId. -/
theorem C1_single_winner :
    (∀ (jid : List Nat) (claims : List (List Nat × List Nat))
        (c1 c2 : List Nat × List Nat),
      claimWins jid claims c1 → claimWins jid claims c2 → c1 = c2) ∧
    (∀ (jid : List Nat) (claims : List (List Nat × List Nat))
        (c : List Nat × List Nat), c ∈ claims →
      (∀ c' ∈ claims, c'.1.length = 10) →
      (∀ c' ∈ claims, c' ≠ c → keyLtB c.1 c'.1 = true) →
      claimWins jid claims c) ∧
    (∀ (db : Store) (teamId workerId : List Nat)
        (blocked : List (List Nat)) (now : Int) (vsn : Nat)
        (db' : Store) (cj : ClaimedJob),
      popNextJob db teamId workerId blocked now vsn = (db', some cj) →
      firstClaimWorker db' cj.job.id = some workerId) := by
  refine ⟨?_, ?_, ?_⟩
  · intro jid claims c1 c2 h1 h2
    by_contra hne
    have ha := h1.2 c2 h2.1 (fun he => hne he.symm)
    have hb := h2.2 c1 h1.1 hne
    rw [keyLtB_asymm ha] at hb
    cases hb
  · intro jid claims c hmem hlen hmin
    refine ⟨hmem, fun c' hmem' hne' => ?_⟩
    have hvs := hmin c' hmem' hne'
    have hvsne : c.1 ≠ c'.1 := by
      intro he
      rw [he, keyLtB_irrefl] at hvs
      cases hvs
    rw [claimFinalKey_lt_eq_vs c.2 c'.2 (hlen c hmem) (hlen c' hmem')
      hvsne]
    exact hvs
  · intro db teamId workerId blocked now vsn db' cj h
    simp only [popNextJob] at h
    by_cases h1 : (popScan db teamId).isEmpty
    · rw [if_pos h1] at h
      injection h with he1 he2
      cases he2
    · rw [if_neg h1] at h
      by_cases h2 : (popCandidates db teamId now blocked).isEmpty
      · rw [if_pos h2] at h
        injection h with he1 he2
        cases he2
      · rw [if_neg h2] at h
        exact popLoop_winner workerId now _ _ _ _ _ h

def claimsW : List (List Nat × List Nat) :=
  [([0, 0, 0, 0, 0, 0, 0, 0, 0, 1], [119]),
   ([0, 0, 0, 0, 0, 0, 0, 0, 0, 2], [120])]

def jobFreshW : FdbQueueJob :=
  { id := [97], data := 0, priority := 5, listenable := false
    createdAt := 0, timesOutAt := none, listenChannelId := none
    crawlId := none, teamId := [116] }

def dbPopW : Store := [(buildQueueKey [116] 5 0 [97], .job jobFreshW)]

theorem C1_single_winner_witness :
    claimWins [97] claimsW ([0, 0, 0, 0, 0, 0, 0, 0, 0, 1], [119]) ∧
    firstClaimWorker (popNextJob dbPopW [116] [119] [] 5 0).1 [97] =
      some [119] := by
  constructor
  · exact C1_single_winner.2.1 [97] claimsW _ (by decide) (by decide)
      (by decide)
  · have h : popNextJob dbPopW [116] [119] [] 5 0 =
        ((popNextJob dbPopW [116] [119] [] 5 0).1,
         some ⟨jobFreshW, buildQueueKey [116] 5 0 [97]⟩) := by decide
    exact C1_single_winner.2.2 dbPopW [116] [119] [] 5 0 _ _ h

def blockedJobW : FdbQueueJob :=
  { id := [97], data := 0, priority := 5, listenable := false
    createdAt := 0, timesOutAt := none, listenChannelId := none
    crawlId := some [99], teamId := [116] }

def blockedDbW : Store := [(buildQueueKey [116] 5 0 [97], .job blockedJobW)]

theorem C8_blocked_crawl_witness :
    (popNextJob blockedDbW [116] [119] [[99]] 5 0 =
      (blockedDbW, none)) ∧
    ∀ db' cj, popNextJob blockedDbW [116] [119] [[99]] 5 0 =
      (db', some cj) → ∀ C ∈ [[99]], cj.job.crawlId ≠ some C :=
  ⟨by decide,
   fun db' cj h =>
     (C8_blocked_crawl blockedDbW [116] [119] [[99]] 5 0 db' cj h).1⟩

/-- Claim C9: complete_job on a handle whose decoded queue key has no
record returns false without raising and performs no mutation (the
returned store is unchanged), and the distinguished invalid-input error
is produced exactly for handles that are not valid base64. -/
theorem C9_complete_missing_job (db : Store) (handle : List Nat) :
    (∀ qk, b64Decode handle = some qk → db.get qk = none →
      completeJob db handle = .ok (db, false)) ∧
    (completeJob db handle = .error .invalidInput ↔
      b64Decode handle = none) := by
  constructor
  · intro qk h1 h2
    simp [completeJob, completeJobTxns, h1, h2, applyTxn, Except.map]
  · cases hd : b64Decode handle with
    | none => simp [completeJob, completeJobTxns, hd, Except.map]
    | some qk =>
      simp only [completeJob, completeJobTxns, hd]
      cases hg : db.get qk with
      | none => simp [Except.map]
      | some v => cases v <;> simp [Except.map]

/-! Counter reconciliation (Claim C6). -/

theorem rangeScan_length_of_le {s : Store} {lo hi : Key} {n : Nat}
    (h : (s.filter (fun kv => inRangeB lo hi kv.1)).length ≤ n) :
    (rangeScan s lo hi n).length =
    (s.filter (fun kv => inRangeB lo hi kv.1)).length := by
  unfold rangeScan
  rw [List.take_of_length_le (by rw [List.length_insertionSort]; exact h),
    List.length_insertionSort]

theorem rangeScan_filter_length {s : Store} {lo hi : Key} {n : Nat}
    (p : Key × Val → Bool)
    (h : (s.filter (fun kv => inRangeB lo hi kv.1)).length ≤ n) :
    ((rangeScan s lo hi n).filter p).length =
    ((s.filter (fun kv => inRangeB lo hi kv.1)).filter p).length := by
  unfold rangeScan
  rw [List.take_of_length_le (by rw [List.length_insertionSort]; exact h)]
  exact ((List.perm_insertionSort entryLe _).filter p).length_eq

/-- Cardinality of the authoritative set for the queued counters: the
entries under the given scan prefix. -/
def prefixCard (db : Store) (lo : Key) : Nat :=
  (db.filter (fun kv => inRangeB lo (endKey lo) kv.1)).length

/-- Cardinality of the authoritative set for the active counters: the
entries under the scan prefix whose stored expiry is after now. -/
def activeCard (db : Store) (lo : Key) (now : Int) : Nat :=
  ((db.filter (fun kv => inRangeB lo (endKey lo) kv.1)).filter
    (fun kv => decide (beIntOfVal kv.2 > now))).length

/-- Claim C6: each reconciler overwrites the stored counter with the
cardinality of its authoritative set and returns actual minus stored
when they differ, returns 0 writing nothing when they agree, and in
either case leaves the counter equal to that cardinality (hypotheses
bound the set size by the source's scan limit: 100000 for the queued
counters, 10000 for the active ones). -/
theorem C6_reconcile_counters (db : Store) (teamId crawlId : List Nat)
    (now : Int) :
    ((prefixCard db (buildQueuePrefixKey teamId) ≤ 100000 →
      (((prefixCard db (buildQueuePrefixKey teamId) : Int) ≠
          db.counterAt (buildCounterKey COUNTER_TEAM teamId) →
        reconcileTeamQueueCounter db teamId =
          (db.set (buildCounterKey COUNTER_TEAM teamId)
            (.counter (prefixCard db (buildQueuePrefixKey teamId))),
           (prefixCard db (buildQueuePrefixKey teamId) : Int) -
             db.counterAt (buildCounterKey COUNTER_TEAM teamId))) ∧
       ((prefixCard db (buildQueuePrefixKey teamId) : Int) =
          db.counterAt (buildCounterKey COUNTER_TEAM teamId) →
        reconcileTeamQueueCounter db teamId = (db, 0)) ∧
       (reconcileTeamQueueCounter db teamId).1.counterAt
           (buildCounterKey COUNTER_TEAM teamId) =
         (prefixCard db (buildQueuePrefixKey teamId) : Int)))) ∧
    ((prefixCard db (buildCrawlIndexPrefixKey crawlId) ≤ 100000 →
      (((prefixCard db (buildCrawlIndexPrefixKey crawlId) : Int) ≠
          db.counterAt (buildCounterKey COUNTER_CRAWL crawlId) →
        reconcileCrawlQueueCounter db crawlId =
          (db.set (buildCounterKey COUNTER_CRAWL crawlId)
            (.counter (prefixCard db (buildCrawlIndexPrefixKey crawlId))),
           (prefixCard db (buildCrawlIndexPrefixKey crawlId) : Int) -
             db.counterAt (buildCounterKey COUNTER_CRAWL crawlId))) ∧
       ((prefixCard db (buildCrawlIndexPrefixKey crawlId) : Int) =
          db.counterAt (buildCounterKey COUNTER_CRAWL crawlId) →
        reconcileCrawlQueueCounter db crawlId = (db, 0)) ∧
       (reconcileCrawlQueueCounter db crawlId).1.counterAt
           (buildCounterKey COUNTER_CRAWL crawlId) =
         (prefixCard db (buildCrawlIndexPrefixKey crawlId) : Int)))) ∧
    ((prefixCard db (buildActivePrefixKey teamId) ≤ 10000 →
      (((activeCard db (buildActivePrefixKey teamId) now : Int) ≠
          db.counterAt (buildCounterKey COUNTER_ACTIVE_TEAM teamId) →
        reconcileTeamActiveCounter db teamId now =
          (db.set (buildCounterKey COUNTER_ACTIVE_TEAM teamId)
            (.counter (activeCard db (buildActivePrefixKey teamId) now)),
           (activeCard db (buildActivePrefixKey teamId) now : Int) -
             db.counterAt (buildCounterKey COUNTER_ACTIVE_TEAM teamId))) ∧
       ((activeCard db (buildActivePrefixKey teamId) now : Int) =
          db.counterAt (buildCounterKey COUNTER_ACTIVE_TEAM teamId) →
        reconcileTeamActiveCounter db teamId now = (db, 0)) ∧
       (reconcileTeamActiveCounter db teamId now).1.counterAt
           (buildCounterKey COUNTER_ACTIVE_TEAM teamId) =
         (activeCard db (buildActivePrefixKey teamId) now : Int)))) ∧
    (prefixCard db (buildActiveCrawlPrefixKey crawlId) ≤ 10000 →
      (((activeCard db (buildActiveCrawlPrefixKey crawlId) now : Int) ≠
          db.counterAt (buildCounterKey COUNTER_ACTIVE_CRAWL crawlId) →
        reconcileCrawlActiveCounter db crawlId now =
          (db.set (buildCounterKey COUNTER_ACTIVE_CRAWL crawlId)
            (.counter
              (activeCard db (buildActiveCrawlPrefixKey crawlId) now)),
           (activeCard db (buildActiveCrawlPrefixKey crawlId) now : Int) -
             db.counterAt
               (buildCounterKey COUNTER_ACTIVE_CRAWL crawlId))) ∧
       ((activeCard db (buildActiveCrawlPrefixKey crawlId) now : Int) =
          db.counterAt (buildCounterKey COUNTER_ACTIVE_CRAWL crawlId) →
        reconcileCrawlActiveCounter db crawlId now = (db, 0)) ∧
       (reconcileCrawlActiveCounter db crawlId now).1.counterAt
           (buildCounterKey COUNTER_ACTIVE_CRAWL crawlId) =
         (activeCard db (buildActiveCrawlPrefixKey crawlId) now : Int)))
    := by
  refine ⟨?_, ?_, ?_, ?_⟩
  · intro hA
    have hact : (rangeScan db (buildQueuePrefixKey teamId)
        (endKey (buildQueuePrefixKey teamId)) 100000).length =
        prefixCard db (buildQueuePrefixKey teamId) :=
      rangeScan_length_of_le hA
    simp only [reconcileTeamQueueCounter]
    rw [hact]
    by_cases he : (prefixCard db (buildQueuePrefixKey teamId) : Int) =
        db.counterAt (buildCounterKey COUNTER_TEAM teamId)
    · rw [if_pos he]
      exact ⟨fun hne => absurd he hne, fun _ => rfl, he.symm⟩
    · rw [if_neg he]
      refine ⟨fun _ => rfl, fun heq => absurd heq he, ?_⟩
      simp [Store.counterAt, Store.get_set_self, leIntOfVal]
  · intro hA
    have hact : (rangeScan db (buildCrawlIndexPrefixKey crawlId)
        (endKey (buildCrawlIndexPrefixKey crawlId)) 100000).length =
        prefixCard db (buildCrawlIndexPrefixKey crawlId) :=
      rangeScan_length_of_le hA
    simp only [reconcileCrawlQueueCounter]
    rw [hact]
    by_cases he : (prefixCard db (buildCrawlIndexPrefixKey crawlId) : Int) =
        db.counterAt (buildCounterKey COUNTER_CRAWL crawlId)
    · rw [if_pos he]
      exact ⟨fun hne => absurd he hne, fun _ => rfl, he.symm⟩
    · rw [if_neg he]
      refine ⟨fun _ => rfl, fun heq => absurd heq he, ?_⟩
      simp [Store.counterAt, Store.get_set_self, leIntOfVal]
  · intro hA
    have hact : ((rangeScan db (buildActivePrefixKey teamId)
        (endKey (buildActivePrefixKey teamId)) 10000).filter
          (fun kv => decide (beIntOfVal kv.2 > now))).length =
        activeCard db (buildActivePrefixKey teamId) now :=
      rangeScan_filter_length _ hA
    simp only [reconcileTeamActiveCounter]
    rw [hact]
    by_cases he : (activeCard db (buildActivePrefixKey teamId) now : Int) =
        db.counterAt (buildCounterKey COUNTER_ACTIVE_TEAM teamId)
    · rw [if_pos he]
      exact ⟨fun hne => absurd he hne, fun _ => rfl, he.symm⟩
    · rw [if_neg he]
      refine ⟨fun _ => rfl, fun heq => absurd heq he, ?_⟩
      simp [Store.counterAt, Store.get_set_self, leIntOfVal]
  · intro hA
    have hact : ((rangeScan db (buildActiveCrawlPrefixKey crawlId)
        (endKey (buildActiveCrawlPrefixKey crawlId)) 10000).filter
          (fun kv => decide (beIntOfVal kv.2 > now))).length =
        activeCard db (buildActiveCrawlPrefixKey crawlId) now :=
      rangeScan_filter_length _ hA
    simp only [reconcileCrawlActiveCounter]
    rw [hact]
    by_cases he : (activeCard db (buildActiveCrawlPrefixKey crawlId) now :
        Int) = db.counterAt (buildCounterKey COUNTER_ACTIVE_CRAWL crawlId)
    · rw [if_pos he]
      exact ⟨fun hne => absurd he hne, fun _ => rfl, he.symm⟩
    · rw [if_neg he]
      refine ⟨fun _ => rfl, fun heq => absurd heq he, ?_⟩
      simp [Store.counterAt, Store.get_set_self, leIntOfVal]

def dbRec : Store :=
  [(buildQueueKey [116] 5 0 [97], .job jobFreshW),
   (buildQueueKey [116] 5 1 [98], .job jobFreshW),
   (buildCounterKey COUNTER_TEAM [116], .counter 5)]

theorem C6_reconcile_counters_witness :
    prefixCard dbRec (buildQueuePrefixKey [116]) ≤ 100000 ∧
    reconcileTeamQueueCounter dbRec [116] =
      (dbRec.set (buildCounterKey COUNTER_TEAM [116]) (.counter 2),
       2 - 5) ∧
    (reconcileTeamQueueCounter dbRec [116]).1.counterAt
      (buildCounterKey COUNTER_TEAM [116]) = 2 := by
  have h := (C6_reconcile_counters dbRec [116] [99] 0).1 (by decide)
  refine ⟨by decide, ?_, ?_⟩
  · have h2 := h.1 (by decide)
    rw [h2]
    rfl
  · have h3 := h.2.2
    rw [h3]
    rfl

/-! Orphaned-claim collection (Claim C7). -/

/-- A claim entry is orphaned: its value yields no usable queue key, or
the record at that key is absent. -/
def claimOrphanedB (db : Store) (kv : Key × Val) : Bool :=
  match claimQueueKeyOf kv.2 with
  | some qk => (db.get qk).isNone
  | none => true

theorem cocClaimsToCheck_cons (kv : Key × Val)
    (rest : List (Key × Val)) :
    cocClaimsToCheck (kv :: rest) =
      if claimKeyGuard kv.1 = true then
        (kv.1, claimQueueKeyOf kv.2) :: cocClaimsToCheck rest
      else cocClaimsToCheck rest := by
  by_cases hg : claimKeyGuard kv.1 = true <;>
    simp [cocClaimsToCheck, List.filterMap_cons, hg]

theorem cocOrphans_cons_none (db : Store) (k : Key)
    (rest : List (Key × Option Key)) :
    cocOrphans db ((k, none) :: rest) = k :: cocOrphans db rest := rfl

theorem cocOrphans_cons_some (db : Store) (k qk : Key)
    (rest : List (Key × Option Key)) :
    cocOrphans db ((k, some qk) :: rest) =
      if (db.get qk).isNone then k :: cocOrphans db rest
      else cocOrphans db rest := by
  cases hg : db.get qk with
  | none => simp [cocOrphans, List.filterMap_cons, hg]
  | some v => simp [cocOrphans, List.filterMap_cons, hg]

theorem cocClaimsToCheck_guard {batch : List (Key × Val)}
    (h : ∀ kv ∈ batch, claimKeyGuard kv.1 = true) :
    cocClaimsToCheck batch =
      batch.map (fun kv => (kv.1, claimQueueKeyOf kv.2)) := by
  induction batch with
  | nil => rfl
  | cons kv t ih =>
    rw [cocClaimsToCheck_cons, if_pos (h kv (List.mem_cons_self _ _)),
      List.map_cons, ih (fun x hx => h x (List.mem_cons_of_mem _ hx))]

theorem cocOrphans_map (db : Store) (batch : List (Key × Val)) :
    cocOrphans db (batch.map (fun kv => (kv.1, claimQueueKeyOf kv.2))) =
      (batch.filter (claimOrphanedB db)).map Prod.fst := by
  induction batch with
  | nil => rfl
  | cons kv t ih =>
    rw [List.map_cons, List.filter_cons]
    cases hq : claimQueueKeyOf kv.2 with
    | none =>
      have ho : claimOrphanedB db kv = true := by
        simp [claimOrphanedB, hq]
      rw [cocOrphans_cons_none, if_pos ho, List.map_cons, ih]
    | some qk =>
      cases hn : (db.get qk).isNone with
      | true =>
        have ho : claimOrphanedB db kv = true := by
          simp [claimOrphanedB, hq, hn]
        rw [cocOrphans_cons_some, hn, if_pos rfl, if_pos ho,
          List.map_cons, ih]
      | false =>
        have ho : claimOrphanedB db kv = false := by
          simp [claimOrphanedB, hq, hn]
        rw [cocOrphans_cons_some, hn,
          if_neg (by exact Bool.false_ne_true),
          if_neg (by rw [ho]; exact Bool.false_ne_true), ih]

theorem foldl_clear_none_mono {k : Key} :
    ∀ (ks : List Key) (s : Store), s.get k = none →
      (ks.foldl Store.clear s).get k = none := by
  intro ks
  induction ks with
  | nil => intro s h; exact h
  | cons a t ih =>
    intro s h
    rw [List.foldl_cons]
    apply ih
    by_cases ha : k = a
    · subst ha
      exact Store.get_clear_self s k
    · rw [Store.get_clear_ne _ _ _ ha]
      exact h

theorem foldl_clear_get_none {k : Key} :
    ∀ (ks : List Key) (db : Store), k ∈ ks →
      (ks.foldl Store.clear db).get k = none := by
  intro ks
  induction ks with
  | nil => intro db h; cases h
  | cons a t ih =>
    intro db h
    rw [List.foldl_cons]
    rcases List.mem_cons.mp h with he | hm
    · subst he
      exact foldl_clear_none_mono t _ (Store.get_clear_self db k)
    · exact ih _ hm

theorem foldl_clear_get_notmem {k : Key} :
    ∀ (ks : List Key) (db : Store), k ∉ ks →
      (ks.foldl Store.clear db).get k = db.get k := by
  intro ks
  induction ks with
  | nil => intro db _; rfl
  | cons a t ih =>
    intro db h
    rw [List.foldl_cons, ih _ (fun hm => h (List.mem_cons_of_mem _ hm)),
      Store.get_clear_ne _ _ _
        (fun he => h (by rw [he]; exact List.mem_cons_self _ _))]

theorem WFKeys_inj {db : Store} (h : db.WFKeys) :
    ∀ {kv kv' : Key × Val}, kv ∈ db → kv' ∈ db → kv.1 = kv'.1 →
      kv = kv' := by
  induction db with
  | nil => intro kv kv' h1; cases h1
  | cons a l ih =>
    intro kv kv' h1 h2 he
    have hmap : ((a :: l).map Prod.fst) = a.1 :: l.map Prod.fst := rfl
    rw [Store.WFKeys, hmap] at h
    obtain ⟨hna, hnl⟩ := List.nodup_cons.mp h
    rcases List.mem_cons.mp h1 with e1 | m1 <;>
      rcases List.mem_cons.mp h2 with e2 | m2
    · rw [e1, e2]
    · exfalso
      apply hna
      have hm : kv'.1 ∈ l.map Prod.fst := List.mem_map_of_mem Prod.fst m2
      rw [← he, e1] at hm
      exact hm
    · exfalso
      apply hna
      have hm : kv.1 ∈ l.map Prod.fst := List.mem_map_of_mem Prod.fst m1
      rw [he, e2] at hm
      exact hm
    · exact ih hnl m1 m2 he

theorem cocLoop_succ (fuel : Nat) (db : Store) (cleaned : Int) :
    cocLoop (fuel + 1) db cleaned =
      if (cocBatch db).isEmpty then (db, cleaned)
      else if (cocClaimsToCheck (cocBatch db)).isEmpty then (db, cleaned)
      else if (cocOrphans db (cocClaimsToCheck (cocBatch db))).isEmpty
      then
        if (cocBatch db).length < 100 then (db, cleaned)
        else cocLoop fuel db cleaned
      else if (cocBatch db).length < 100 then
        ((cocOrphans db (cocClaimsToCheck (cocBatch db))).foldl
          Store.clear db,
         cleaned +
           ((cocOrphans db (cocClaimsToCheck (cocBatch db))).length :
             Int))
      else
        cocLoop fuel
          ((cocOrphans db (cocClaimsToCheck (cocBatch db))).foldl
            Store.clear db)
          (cleaned +
            ((cocOrphans db (cocClaimsToCheck (cocBatch db))).length :
              Int)) := rfl

/-- With fewer than 100 claims stored, all with keys passing the length
guard, one call to clean_orphaned_claims performs exactly one batch:
it clears this batch's orphans and reports their number. -/
theorem cleanOrphanedClaims_once (db : Store)
    (hcnt : (db.filter
      (fun kv => inRangeB CLAIMS_TAG (endKey CLAIMS_TAG) kv.1)).length <
      100)
    (hwfk : ∀ kv ∈ db,
      inRangeB CLAIMS_TAG (endKey CLAIMS_TAG) kv.1 = true →
      claimKeyGuard kv.1 = true) :
    cleanOrphanedClaims db =
      ((((cocBatch db).filter (claimOrphanedB db)).map Prod.fst).foldl
        Store.clear db,
       ((((cocBatch db).filter (claimOrphanedB db)).map
         Prod.fst).length : Int)) := by
  have hguard : ∀ kv ∈ cocBatch db, claimKeyGuard kv.1 = true := by
    intro kv hkv
    obtain ⟨hdb, hin⟩ := mem_rangeScan hkv
    exact hwfk kv hdb hin
  have horph : cocOrphans db (cocClaimsToCheck (cocBatch db)) =
      ((cocBatch db).filter (claimOrphanedB db)).map Prod.fst := by
    rw [cocClaimsToCheck_guard hguard, cocOrphans_map]
  have hlen : (cocBatch db).length < 100 := by
    have hs := @rangeScan_length_of_le db CLAIMS_TAG
      (endKey CLAIMS_TAG) 100 (le_of_lt hcnt)
    rw [cocBatch, hs]
    exact hcnt
  rw [show cleanOrphanedClaims db = cocLoop (9 + 1) db 0 from rfl,
    cocLoop_succ]
  by_cases hb : (cocBatch db).isEmpty
  · rw [if_pos hb]
    have hbe : cocBatch db = [] := by
      cases hx : cocBatch db with
      | nil => rfl
      | cons a t => rw [hx] at hb; cases hb
    rw [hbe]
    simp
  · rw [if_neg hb]
    have htcne : (cocClaimsToCheck (cocBatch db)).isEmpty = false := by
      rw [cocClaimsToCheck_guard hguard]
      cases hx : cocBatch db with
      | nil => rw [hx] at hb; exact absurd rfl hb
      | cons a t => simp
    rw [if_neg (by rw [htcne]; exact Bool.false_ne_true), horph]
    by_cases ho :
      ((((cocBatch db).filter (claimOrphanedB db)).map Prod.fst)).isEmpty
    · rw [if_pos ho, if_pos hlen]
      have hoe : ((cocBatch db).filter (claimOrphanedB db)).map
          Prod.fst = [] := by
        cases hx : ((cocBatch db).filter (claimOrphanedB db)).map
            Prod.fst with
        | nil => rfl
        | cons a t => rw [hx] at ho; cases ho
      rw [hoe]
      simp
    · rw [if_neg ho, if_pos hlen]
      simp

/-- Claim C7 (amended): when the claims subspace holds fewer than 100
claims and every stored claim key passes the engine's key-shape guard,
a single call to clean_orphaned_claims clears exactly the orphaned
claims (those whose value lacks a usable queue key or whose referenced
record is absent), returns their number, and leaves every other key of
the store untouched. -/
theorem C7_clean_orphaned_claims (db : Store) (hwf : db.WFKeys)
    (hcnt : (db.filter
      (fun kv => inRangeB CLAIMS_TAG (endKey CLAIMS_TAG) kv.1)).length <
      100)
    (hwfk : ∀ kv ∈ db,
      inRangeB CLAIMS_TAG (endKey CLAIMS_TAG) kv.1 = true →
      claimKeyGuard kv.1 = true) :
    ((cleanOrphanedClaims db).2 =
      (((db.filter
        (fun kv => inRangeB CLAIMS_TAG (endKey CLAIMS_TAG) kv.1)).filter
        (claimOrphanedB db)).length : Int)) ∧
    (∀ kv ∈ db, inRangeB CLAIMS_TAG (endKey CLAIMS_TAG) kv.1 = true →
      claimOrphanedB db kv = true →
      (cleanOrphanedClaims db).1.get kv.1 = none) ∧
    (∀ kv ∈ db, inRangeB CLAIMS_TAG (endKey CLAIMS_TAG) kv.1 = true →
      claimOrphanedB db kv = false →
      (cleanOrphanedClaims db).1.get kv.1 = db.get kv.1) ∧
    (∀ k : Key, inRangeB CLAIMS_TAG (endKey CLAIMS_TAG) k = false →
      (cleanOrphanedClaims db).1.get k = db.get k) := by
  have honce := cleanOrphanedClaims_once db hcnt hwfk
  have hmemB : ∀ kv ∈ db,
      inRangeB CLAIMS_TAG (endKey CLAIMS_TAG) kv.1 = true →
      kv ∈ cocBatch db := by
    intro kv hdb hin
    have h1 : kv ∈ db.filter
        (fun kv => inRangeB CLAIMS_TAG (endKey CLAIMS_TAG) kv.1) :=
      List.mem_filter.mpr ⟨hdb, hin⟩
    show kv ∈ rangeScan db CLAIMS_TAG (endKey CLAIMS_TAG) 100
    unfold rangeScan
    rw [List.take_of_length_le
      (by rw [List.length_insertionSort]; omega)]
    exact (List.perm_insertionSort entryLe _).mem_iff.mpr h1
  refine ⟨?_, ?_, ?_, ?_⟩
  · rw [honce]
    simp only [List.length_map]
    have := @rangeScan_filter_length db CLAIMS_TAG (endKey CLAIMS_TAG)
      100 (claimOrphanedB db) (le_of_lt hcnt)
    rw [show ((cocBatch db).filter (claimOrphanedB db)).length =
      ((rangeScan db CLAIMS_TAG (endKey CLAIMS_TAG) 100).filter
        (claimOrphanedB db)).length from rfl, this]
  · intro kv hdb hin horf
    rw [honce]
    exact foldl_clear_get_none _ _
      (List.mem_map_of_mem Prod.fst
        (List.mem_filter.mpr ⟨hmemB kv hdb hin, horf⟩))
  · intro kv hdb hin horf
    rw [honce]
    apply foldl_clear_get_notmem
    intro hmem
    obtain ⟨x, hxf, hx1⟩ := List.mem_map.mp hmem
    obtain ⟨hxB, hxo⟩ := List.mem_filter.mp hxf
    have hxdb : x ∈ db := (mem_rangeScan hxB).1
    have hxeq : x = kv := WFKeys_inj hwf hxdb hdb hx1
    rw [hxeq, horf] at hxo
    cases hxo
  · intro k hk
    rw [honce]
    apply foldl_clear_get_notmem
    intro hmem
    obtain ⟨x, hxf, hx1⟩ := List.mem_map.mp hmem
    obtain ⟨hxB, _⟩ := List.mem_filter.mp hxf
    have hxin := (mem_rangeScan hxB).2
    rw [hx1, hk] at hxin
    cases hxin

def orphanDbC7 : Store := [([7, 0], .claimVal [119] none 0)]

/-- Claim C7 counterexample: a claim stored in the claims subspace whose
value lacks a usable queue key (so it is orphaned by the claim's own
words), but whose 2-byte key fails the sweep's key-length guard: one
full call of clean_orphaned_claims clears nothing, returns 0, and the
orphaned claim is still present afterwards. -/
theorem C7_clean_orphaned_claims_counterexample :
    inRangeB CLAIMS_TAG (endKey CLAIMS_TAG) [7, 0] = true ∧
    claimOrphanedB orphanDbC7 ([7, 0], .claimVal [119] none 0) = true ∧
    cleanOrphanedClaims orphanDbC7 = (orphanDbC7, 0) ∧
    (cleanOrphanedClaims orphanDbC7).1.get [7, 0] =
      some (.claimVal [119] none 0) := by
  refine ⟨by decide, by decide, by decide, by decide⟩

def wfDbC7 : Store :=
  [(claimFinalKey [122] (vsBytes 1) [119],
    .claimVal [119] (some (buildQueueKey [116] 5 0 [122])) 0),
   (claimFinalKey [97] (vsBytes 2) [120],
    .claimVal [120] (some (buildQueueKey [116] 5 0 [97])) 1),
   (buildQueueKey [116] 5 0 [97], .job jobFreshW)]

theorem C7_clean_orphaned_claims_witness :
    wfDbC7.WFKeys ∧
    (cleanOrphanedClaims wfDbC7).2 = 1 ∧
    (cleanOrphanedClaims wfDbC7).1.get
      (claimFinalKey [122] (vsBytes 1) [119]) = none := by
  have h := C7_clean_orphaned_claims wfDbC7
    (show (wfDbC7.map Prod.fst).Nodup by decide) (by decide) (by decide)
  refine ⟨show (wfDbC7.map Prod.fst).Nodup by decide, ?_, ?_⟩
  · rw [h.1]
    decide
  · exact h.2.1
      (claimFinalKey [122] (vsBytes 1) [119],
       .claimVal [119] (some (buildQueueKey [116] 5 0 [122])) 0)
      (by decide) (by decide) (by decide)

theorem inRange_claims_take1 {jobId : List Nat} {k : Key}
    (h : inRangeB (buildClaimsPrefixKey jobId)
      (endKey (buildClaimsPrefixKey jobId)) k = true) :
    k.take 1 = [7] := by
  have hshape : buildClaimsPrefixKey jobId =
      7 :: (lenPre jobId ++ jobId) := rfl
  rw [hshape] at h
  exact take1_of_inRange h

theorem notin_claims_of_take1 {jobId k : Key} {a : Nat}
    (hk : k.take 1 = [a]) (ha : a ≠ 7) :
    inRangeB (buildClaimsPrefixKey jobId)
      (endKey (buildClaimsPrefixKey jobId)) k = false := by
  cases hx : inRangeB (buildClaimsPrefixKey jobId)
      (endKey (buildClaimsPrefixKey jobId)) k with
  | false => rfl
  | true =>
    exfalso
    have h7 := inRange_claims_take1 hx
    rw [hk] at h7
    injection h7 with h7'
    exact ha h7'

/-- Effect of complete_job's single mutation transaction on the store:
the queue record is gone, the team-queued counter is decremented, the
TTL entry (when the job had one) is gone, the crawl index entry is gone
and the crawl-queued counter decremented (when the job had a crawl), and
every key of the job's claims subspace is gone. -/
theorem completeMutTxn_effect (db : Store) (qk : Key) (j : FdbQueueJob)
    (hqk : qk.take 1 = [1]) :
    (applyTxn db (completeMutTxn qk j)).get qk = none ∧
    (applyTxn db (completeMutTxn qk j)).counterAt
        (buildCounterKey COUNTER_TEAM j.teamId) =
      wrap64 (db.counterAt (buildCounterKey COUNTER_TEAM j.teamId) + (-1)) ∧
    (∀ t, j.timesOutAt = some t →
      (applyTxn db (completeMutTxn qk j)).get
        (buildTtlIndexKey t j.teamId j.id) = none) ∧
    (∀ cid, j.crawlId = some cid →
      (applyTxn db (completeMutTxn qk j)).get
          (buildCrawlIndexKey cid j.id) = none ∧
      (applyTxn db (completeMutTxn qk j)).counterAt
          (buildCounterKey COUNTER_CRAWL cid) =
        wrap64 (db.counterAt (buildCounterKey COUNTER_CRAWL cid) + (-1))) ∧
    (∀ k, inRangeB (buildClaimsPrefixKey j.id)
        (endKey (buildClaimsPrefixKey j.id)) k = true →
      (applyTxn db (completeMutTxn qk j)).get k = none) := by
  have hqk3 : qk ≠ buildCounterKey COUNTER_TEAM j.teamId :=
    ne_of_take_ne (n := 1) (by rw [hqk, take1_buildCounterKey]; decide)
  cases ht : j.timesOutAt with
  | some t =>
    cases hc : j.crawlId with
    | some cid =>
      simp only [completeMutTxn, ht, hc, applyTxn, List.cons_append,
        List.nil_append, List.foldl_cons, List.foldl_nil, applyMut]
      refine ⟨?_, ?_, ?_, ?_, ?_⟩
      · rw [Store.get_clearRange_notin _ _ _ _
          (notin_claims_of_take1 hqk (by decide))]
        rw [Store.get_addCounter_ne _ _ _ _ (ne_of_take_ne (n := 1)
          (by rw [hqk, take1_buildCounterKey]; decide))]
        rw [Store.get_clear_ne _ _ _ (ne_of_take_ne (n := 1)
          (by rw [hqk, take1_buildCrawlIndexKey]; decide))]
        rw [Store.get_clear_ne _ _ _ (ne_of_take_ne (n := 1)
          (by rw [hqk, take1_buildTtlIndexKey]; decide))]
        rw [Store.get_addCounter_ne _ _ _ _ hqk3]
        exact Store.get_clear_self db qk
      · rw [Store.counterAt_congr (Store.get_clearRange_notin _ _ _ _
          (notin_claims_of_take1 (take1_buildCounterKey _ _) (by decide)))]
        rw [Store.counterAt_congr (Store.get_addCounter_ne _ _ _ _
          (ne_of_take_ne (n := 2)
            (by rw [take2_counterTeam, take2_counterCrawl]; decide)))]
        rw [Store.counterAt_congr (Store.get_clear_ne _ _ _
          (ne_of_take_ne (n := 1)
            (by rw [take1_buildCounterKey, take1_buildCrawlIndexKey]; decide)))]
        rw [Store.counterAt_congr (Store.get_clear_ne _ _ _
          (ne_of_take_ne (n := 1)
            (by rw [take1_buildCounterKey, take1_buildTtlIndexKey]; decide)))]
        rw [Store.counterAt_addCounter_self]
        rw [Store.counterAt_congr (Store.get_clear_ne _ _ _
          (fun he => hqk3 he.symm))]
      · intro t' ht'
        injection ht' with he
        subst he
        rw [Store.get_clearRange_notin _ _ _ _
          (notin_claims_of_take1 (take1_buildTtlIndexKey _ _ _) (by decide))]
        rw [Store.get_addCounter_ne _ _ _ _ (ne_of_take_ne (n := 1)
          (by rw [take1_buildTtlIndexKey, take1_buildCounterKey]; decide))]
        rw [Store.get_clear_ne _ _ _ (ne_of_take_ne (n := 1)
          (by rw [take1_buildTtlIndexKey, take1_buildCrawlIndexKey]; decide))]
        exact Store.get_clear_self _ _
      · intro cid' hc'
        injection hc' with he
        subst he
        constructor
        · rw [Store.get_clearRange_notin _ _ _ _
            (notin_claims_of_take1 (take1_buildCrawlIndexKey _ _)
              (by decide))]
          rw [Store.get_addCounter_ne _ _ _ _ (ne_of_take_ne (n := 1)
            (by rw [take1_buildCrawlIndexKey, take1_buildCounterKey]; decide))]
          exact Store.get_clear_self _ _
        · rw [Store.counterAt_congr (Store.get_clearRange_notin _ _ _ _
            (notin_claims_of_take1 (take1_buildCounterKey _ _)
              (by decide)))]
          rw [Store.counterAt_addCounter_self]
          rw [Store.counterAt_congr (Store.get_clear_ne _ _ _
            (ne_of_take_ne (n := 1)
              (by rw [take1_buildCounterKey, take1_buildCrawlIndexKey]; decide)))]
          rw [Store.counterAt_congr (Store.get_clear_ne _ _ _
            (ne_of_take_ne (n := 1)
              (by rw [take1_buildCounterKey, take1_buildTtlIndexKey]; decide)))]
          rw [Store.counterAt_congr (Store.get_addCounter_ne _ _ _ _
            (ne_of_take_ne (n := 2)
              (by rw [take2_counterCrawl, take2_counterTeam]; decide)))]
          rw [Store.counterAt_congr (Store.get_clear_ne _ _ _
            (ne_of_take_ne (n := 1)
              (by rw [take1_buildCounterKey, hqk]; decide)))]
      · intro k hk
        exact Store.get_clearRange_in _ _ _ _ hk
    | none =>
      simp only [completeMutTxn, ht, hc, applyTxn, List.cons_append,
        List.nil_append, List.foldl_cons, List.foldl_nil, applyMut]
      refine ⟨?_, ?_, ?_, ?_, ?_⟩
      · rw [Store.get_clearRange_notin _ _ _ _
          (notin_claims_of_take1 hqk (by decide))]
        rw [Store.get_clear_ne _ _ _ (ne_of_take_ne (n := 1)
          (by rw [hqk, take1_buildTtlIndexKey]; decide))]
        rw [Store.get_addCounter_ne _ _ _ _ hqk3]
        exact Store.get_clear_self db qk
      · rw [Store.counterAt_congr (Store.get_clearRange_notin _ _ _ _
          (notin_claims_of_take1 (take1_buildCounterKey _ _) (by decide)))]
        rw [Store.counterAt_congr (Store.get_clear_ne _ _ _
          (ne_of_take_ne (n := 1)
            (by rw [take1_buildCounterKey, take1_buildTtlIndexKey]; decide)))]
        rw [Store.counterAt_addCounter_self]
        rw [Store.counterAt_congr (Store.get_clear_ne _ _ _
          (fun he => hqk3 he.symm))]
      · intro t' ht'
        injection ht' with he
        subst he
        rw [Store.get_clearRange_notin _ _ _ _
          (notin_claims_of_take1 (take1_buildTtlIndexKey _ _ _) (by decide))]
        exact Store.get_clear_self _ _
      · intro cid' hc'
        cases hc'
      · intro k hk
        exact Store.get_clearRange_in _ _ _ _ hk
  | none =>
    cases hc : j.crawlId with
    | some cid =>
      simp only [completeMutTxn, ht, hc, applyTxn, List.cons_append,
        List.nil_append, List.foldl_cons, List.foldl_nil, applyMut]
      refine ⟨?_, ?_, ?_, ?_, ?_⟩
      · rw [Store.get_clearRange_notin _ _ _ _
          (notin_claims_of_take1 hqk (by decide))]
        rw [Store.get_addCounter_ne _ _ _ _ (ne_of_take_ne (n := 1)
          (by rw [hqk, take1_buildCounterKey]; decide))]
        rw [Store.get_clear_ne _ _ _ (ne_of_take_ne (n := 1)
          (by rw [hqk, take1_buildCrawlIndexKey]; decide))]
        rw [Store.get_addCounter_ne _ _ _ _ hqk3]
        exact Store.get_clear_self db qk
      · rw [Store.counterAt_congr (Store.get_clearRange_notin _ _ _ _
          (notin_claims_of_take1 (take1_buildCounterKey _ _) (by decide)))]
        rw [Store.counterAt_congr (Store.get_addCounter_ne _ _ _ _
          (ne_of_take_ne (n := 2)
            (by rw [take2_counterTeam, take2_counterCrawl]; decide)))]
        rw [Store.counterAt_congr (Store.get_clear_ne _ _ _
          (ne_of_take_ne (n := 1)
            (by rw [take1_buildCounterKey, take1_buildCrawlIndexKey]; decide)))]
        rw [Store.counterAt_addCounter_self]
        rw [Store.counterAt_congr (Store.get_clear_ne _ _ _
          (fun he => hqk3 he.symm))]
      · intro t' ht'
        cases ht'
      · intro cid' hc'
        injection hc' with he
        subst he
        constructor
        · rw [Store.get_clearRange_notin _ _ _ _
            (notin_claims_of_take1 (take1_buildCrawlIndexKey _ _)
              (by decide))]
          rw [Store.get_addCounter_ne _ _ _ _ (ne_of_take_ne (n := 1)
            (by rw [take1_buildCrawlIndexKey, take1_buildCounterKey]; decide))]
          exact Store.get_clear_self _ _
        · rw [Store.counterAt_congr (Store.get_clearRange_notin _ _ _ _
            (notin_claims_of_take1 (take1_buildCounterKey _ _)
              (by decide)))]
          rw [Store.counterAt_addCounter_self]
          rw [Store.counterAt_congr (Store.get_clear_ne _ _ _
            (ne_of_take_ne (n := 1)
              (by rw [take1_buildCounterKey, take1_buildCrawlIndexKey]; decide)))]
          rw [Store.counterAt_congr (Store.get_addCounter_ne _ _ _ _
            (ne_of_take_ne (n := 2)
              (by rw [take2_counterCrawl, take2_counterTeam]; decide)))]
          rw [Store.counterAt_congr (Store.get_clear_ne _ _ _
            (ne_of_take_ne (n := 1)
              (by rw [take1_buildCounterKey, hqk]; decide)))]
      · intro k hk
        exact Store.get_clearRange_in _ _ _ _ hk
    | none =>
      simp only [completeMutTxn, ht, hc, applyTxn, List.cons_append,
        List.nil_append, List.foldl_cons, List.foldl_nil, applyMut]
      refine ⟨?_, ?_, ?_, ?_, ?_⟩
      · rw [Store.get_clearRange_notin _ _ _ _
          (notin_claims_of_take1 hqk (by decide))]
        rw [Store.get_addCounter_ne _ _ _ _ hqk3]
        exact Store.get_clear_self db qk
      · rw [Store.counterAt_congr (Store.get_clearRange_notin _ _ _ _
          (notin_claims_of_take1 (take1_buildCounterKey _ _) (by decide)))]
        rw [Store.counterAt_addCounter_self]
        rw [Store.counterAt_congr (Store.get_clear_ne _ _ _
          (fun he => hqk3 he.symm))]
      · intro t' ht'
        cases ht'
      · intro cid' hc'
        cases hc'
      · intro k hk
        exact Store.get_clearRange_in _ _ _ _ hk

theorem completeMutTxn_muts_mem (qk : Key) (j : FdbQueueJob) :
    Mut.clearKey qk ∈ (completeMutTxn qk j).muts ∧
    Mut.addInt (buildCounterKey COUNTER_TEAM j.teamId) (-1) ∈
      (completeMutTxn qk j).muts ∧
    (∀ t, j.timesOutAt = some t →
      Mut.clearKey (buildTtlIndexKey t j.teamId j.id) ∈
        (completeMutTxn qk j).muts) ∧
    (∀ cid, j.crawlId = some cid →
      Mut.clearKey (buildCrawlIndexKey cid j.id) ∈
          (completeMutTxn qk j).muts ∧
      Mut.addInt (buildCounterKey COUNTER_CRAWL cid) (-1) ∈
        (completeMutTxn qk j).muts) ∧
    Mut.clearKeyRange (buildClaimsPrefixKey j.id)
      (endKey (buildClaimsPrefixKey j.id)) ∈ (completeMutTxn qk j).muts := by
  refine ⟨?_, ?_, ?_, ?_, ?_⟩
  · cases ht : j.timesOutAt <;> cases hc : j.crawlId <;>
      simp [completeMutTxn, ht, hc]
  · cases ht : j.timesOutAt <;> cases hc : j.crawlId <;>
      simp [completeMutTxn, ht, hc]
  · intro t htt
    cases hc : j.crawlId <;> simp [completeMutTxn, htt, hc]
  · intro cid hcc
    cases ht : j.timesOutAt <;> simp [completeMutTxn, ht, hcc]
  · cases ht : j.timesOutAt <;> cases hc : j.crawlId <;>
      simp [completeMutTxn, ht, hc]

/-- Claim C3 (amended): complete_job reads the queue record in a first
transaction and then, in one single separate transaction, clears the
queue record, clears the TTL index entry when timesOutAt is set, clears
the crawl index entry and decrements the crawl-queued counter when
crawlId is set, decrements the team-queued counter, and clears every
claim under the job's claims subspace; the mutations are atomic (one
transaction, applied as a whole), so no partial mutation state is
visible, but the read of the record is NOT in that transaction: it
happens in the earlier read-only transaction. -/
theorem C3_complete_atomic (db : Store) (handle qk : List Nat)
    (j : FdbQueueJob) (hd : b64Decode handle = some qk)
    (hg : db.get qk = some (.job j)) (hqk : qk.take 1 = [1]) :
    completeJobTxns db handle =
      .ok ([{ reads := [qk], muts := [] }, completeMutTxn qk j], true) ∧
    completeJob db handle =
      .ok (applyTxn db (completeMutTxn qk j), true) ∧
    Mut.clearKey qk ∈ (completeMutTxn qk j).muts ∧
    Mut.addInt (buildCounterKey COUNTER_TEAM j.teamId) (-1) ∈
      (completeMutTxn qk j).muts ∧
    (∀ t, j.timesOutAt = some t →
      Mut.clearKey (buildTtlIndexKey t j.teamId j.id) ∈
        (completeMutTxn qk j).muts) ∧
    (∀ cid, j.crawlId = some cid →
      Mut.clearKey (buildCrawlIndexKey cid j.id) ∈
          (completeMutTxn qk j).muts ∧
      Mut.addInt (buildCounterKey COUNTER_CRAWL cid) (-1) ∈
        (completeMutTxn qk j).muts) ∧
    Mut.clearKeyRange (buildClaimsPrefixKey j.id)
      (endKey (buildClaimsPrefixKey j.id)) ∈ (completeMutTxn qk j).muts ∧
    (applyTxn db (completeMutTxn qk j)).get qk = none ∧
    (applyTxn db (completeMutTxn qk j)).counterAt
        (buildCounterKey COUNTER_TEAM j.teamId) =
      wrap64 (db.counterAt (buildCounterKey COUNTER_TEAM j.teamId) + (-1)) ∧
    (∀ t, j.timesOutAt = some t →
      (applyTxn db (completeMutTxn qk j)).get
        (buildTtlIndexKey t j.teamId j.id) = none) ∧
    (∀ cid, j.crawlId = some cid →
      (applyTxn db (completeMutTxn qk j)).get
          (buildCrawlIndexKey cid j.id) = none ∧
      (applyTxn db (completeMutTxn qk j)).counterAt
          (buildCounterKey COUNTER_CRAWL cid) =
        wrap64 (db.counterAt (buildCounterKey COUNTER_CRAWL cid) + (-1))) ∧
    (∀ k, inRangeB (buildClaimsPrefixKey j.id)
        (endKey (buildClaimsPrefixKey j.id)) k = true →
      (applyTxn db (completeMutTxn qk j)).get k = none) := by
  obtain ⟨m1, m2, m3, m4, m5⟩ := completeMutTxn_muts_mem qk j
  obtain ⟨e1, e2, e3, e4, e5⟩ := completeMutTxn_effect db qk j hqk
  refine ⟨?_, ?_, m1, m2, m3, m4, m5, e1, e2, e3, e4, e5⟩
  · simp [completeJobTxns, hd, hg]
  · simp [completeJob, completeJobTxns, hd, hg, Except.map, applyTxn]

def jC : FdbQueueJob :=
  { id := [97], data := 0, priority := 5, listenable := false
    createdAt := 0, timesOutAt := none, listenChannelId := none
    crawlId := none, teamId := [116] }

def qkC : Key := buildQueueKey [116] 5 0 [97]

def handleC : List Nat :=
  [65, 81, 65, 65, 65, 65, 70, 48, 65, 65, 65, 65, 66, 81, 65, 65, 65,
   65, 65, 65, 65, 65, 65, 65, 65, 65, 65, 65, 65, 87, 69, 61]

def dbC : Store := [(qkC, .job jC)]

/-- Claim C3 counterexample: on a store holding one job, complete_job
issues two transactions, and no single transaction both reads the queue
record and carries a mutation, so the read of the record is not in the
transaction that clears everything, contrary to the claim. -/
theorem C3_complete_atomic_counterexample :
    completeJobTxns dbC handleC =
      .ok ([{ reads := [qkC], muts := [] }, completeMutTxn qkC jC], true) ∧
    (([{ reads := [qkC], muts := [] }, completeMutTxn qkC jC] :
        List Txn).all
      (fun t => !(t.reads.contains qkC && !t.muts.isEmpty))) = true := by
  constructor
  · rfl
  · decide

theorem C3_complete_atomic_witness :
    b64Decode handleC = some qkC ∧
    dbC.get qkC = some (.job jC) ∧
    qkC.take 1 = [1] ∧
    (completeJobTxns dbC handleC =
      .ok ([{ reads := [qkC], muts := [] }, completeMutTxn qkC jC], true) ∧
     (applyTxn dbC (completeMutTxn qkC jC)).get qkC = none) := by
  refine ⟨by decide, by decide, by decide, ?_⟩
  have h := C3_complete_atomic dbC handleC qkC jC (by decide) (by decide)
    (by decide)
  exact ⟨h.1, h.2.2.2.2.2.2.2.1⟩

theorem C9_complete_missing_job_witness :
    completeJob []
      [65, 81, 65, 65, 65, 65, 70, 48, 65, 65, 65, 65, 66, 81, 65, 65,
       65, 65, 65, 65, 65, 65, 65, 65, 65, 65, 65, 65, 65, 87, 69, 61] =
      .ok ([], false) ∧
    completeJob [] [33] = .error .invalidInput := by
  constructor
  · exact (C9_complete_missing_job [] _).1
      [1, 0, 0, 0, 1, 116, 0, 0, 0, 5, 0, 0, 0, 0, 0, 0, 0, 0, 0, 0, 0,
       1, 97] (by decide) (by decide)
  · exact (C9_complete_missing_job [] [33]).2.mpr (by decide)

end FdbQ
